import Mathlib

/-!
Verification of the room/presence/relay behaviour of the collaboration
backend.  Each controller of the source is embedded as a small executable
state machine: JavaScript Map objects become functions from keys to
Option values (or association lists where the code also needs a size),
JavaScript Set objects of primitive values become duplicate-free lists
with value equality, and JavaScript Set objects of object literals become
plain lists, because adding a fresh object literal to such a set never
deduplicates (object identity, not value equality, is what a JS Set
compares).
-/

namespace Collab

/-! ## JavaScript helper semantics -/

/-- Truthiness of a nullable string, as JavaScript sees it: null and the
empty string are falsy, every other string is truthy. -/
def truthy : Option String → Bool
  | none => false
  | some s => s ≠ ""

/-- Set.add for a JS Set of strings (value equality): a no-op when the
value is already present, otherwise appended at the end. -/
def strSetAdd (s : List String) (x : String) : List String :=
  if x ∈ s then s else s ++ [x]

/-! ## Document collaboration controller (src/controller/documentCollaboration.js)

The controller keeps activeSessions (sessionId to session data) and
userSessions (userId to the set of the sessions that user is in).  The
participants field of a session is a JS Set of userId strings, hence a
duplicate-free list under value equality. -/

structure DocSession where
  sessionId : String
  documentId : String
  document_name : String
  creator_id : String
  /-- none models the string literal unlimited for max_editors. -/
  max_editors : Option Nat
  participants : List String
  status : String
deriving DecidableEq, Repr

structure DCState where
  activeSessions : String → Option DocSession
  userSessions : String → Option (List String)

/-- Result of joinDocumentSession, one constructor per response the
handler can produce. -/
inductive DCJoinResult where
  /-- AppError 404: Session with ID ... not found. -/
  | notFound (sessionId : String)
  /-- AppError 403: Session is full. Maximum participants reached. -/
  | sessionFull
  /-- 200 response with message Already joined. -/
  | alreadyJoined (sessionId documentId : String) (participants_count : Nat)
  /-- 200 response after adding the user. -/
  | joined (sessionId documentId : String) (participants_count : Nat)
deriving DecidableEq, Repr

/-- Capacity test of joinDocumentSession: max_editors not unlimited and
participants.size at or above the parsed limit. -/
def capacityReached (sess : DocSession) : Bool :=
  match sess.max_editors with
  | none => false
  | some m => sess.participants.length ≥ m

/-- joinDocumentSession: look the session up, reject when full, answer
Already joined for an existing participant, otherwise add the user to
the session and record the session under the user. -/
def joinDocumentSession (s : DCState) (sessionId userId : String) :
    DCState × DCJoinResult :=
  match s.activeSessions sessionId with
  | none => (s, .notFound sessionId)
  | some sess =>
    if capacityReached sess then
      (s, .sessionFull)
    else if userId ∈ sess.participants then
      (s, .alreadyJoined sess.sessionId sess.documentId sess.participants.length)
    else
      let sess' := { sess with participants := sess.participants ++ [userId] }
      let us := (s.userSessions userId).getD []
      let s' : DCState :=
        { activeSessions := fun k =>
            if k = sessionId then some sess' else s.activeSessions k
          userSessions := fun k =>
            if k = userId then some (strSetAdd us sessionId) else s.userSessions k }
      (s', .joined sess.sessionId sess.documentId sess'.participants.length)

/-- Result of leaveDocumentSession. -/
inductive DCLeaveResult where
  | notFound (sessionId : String)
  /-- 200 response carrying remaining_participants. -/
  | left (sessionId : String) (remaining : Nat)
deriving DecidableEq, Repr

/-- leaveDocumentSession: remove the user from the participants set and
from the per-user session table; when no participants remain and the
leaver is not the creator, mark the session inactive. -/
def leaveDocumentSession (s : DCState) (sessionId userId : String) :
    DCState × DCLeaveResult :=
  match s.activeSessions sessionId with
  | none => (s, .notFound sessionId)
  | some sess =>
    let parts := sess.participants.erase userId
    let status' :=
      if parts.isEmpty ∧ sess.creator_id ≠ userId then "inactive" else sess.status
    let sess' := { sess with participants := parts, status := status' }
    let s' : DCState :=
      { activeSessions := fun k =>
          if k = sessionId then some sess' else s.activeSessions k
        userSessions := fun k =>
          if k = userId then (s.userSessions userId).map (fun ids => ids.erase sessionId)
          else s.userSessions k }
    (s', .left sessionId parts.length)

/-- Filter used by getUserDocumentSessions and getAllDocumentSessions to
decide whether a session is listed: its status must be the string
active. -/
def isListedActive (sess : DocSession) : Bool :=
  sess.status == "active"

/-- Session used as a concrete input: one seat, already taken by the
creator u1, who is its only participant. -/
def dcFullSession : DocSession :=
  { sessionId := "s1", documentId := "d1", document_name := "doc",
    creator_id := "u1", max_editors := some 1,
    participants := ["u1"], status := "active" }

/-- State holding only dcFullSession. -/
def dcFullState : DCState :=
  { activeSessions := fun k => if k = "s1" then some dcFullSession else none
    userSessions := fun k => if k = "u1" then some ["s1"] else none }

/-! ## Ephemeral chat session server (src/controller/chatFeature.js)

The session server keeps connectedClients (socketId to per-connection
data), allClients (userId to the identity record of everyone who ever
connected, kept across disconnects for rejoin), and a clientCount
counter. -/

structure CFClientRecord where
  userId : String
  currentSocketId : Option String
  connection_count : Nat
deriving DecidableEq, Repr

structure CFClientData where
  isRejoining : Bool
  userId : Option String
deriving DecidableEq, Repr

structure CFState where
  allClients : String → Option CFClientRecord
  connectedClients : String → Option CFClientData
  clientCount : Int

/-- Events the session server emits; toSid is a unicast target and
exceptSid marks a socket.broadcast (everyone but that socket). -/
inductive CFEmit where
  | sessionFullError (toSid : String)
  | rejoinSuccess (toSid userId : String)
  | userRejoined (exceptSid userId : String) (total_clients : Int)
  | rejoinError (toSid : String)
  | userJoined (exceptSid userId : String) (total_clients : Int)
  | welcome (toSid userId : String)
  /-- user-left broadcast; the payload userId is null when the closure
  never learned one, or the string Unknown when the socket was not in
  connectedClients. -/
  | userLeft (exceptSid : String) (userId : Option String) (total_clients : Int)
deriving DecidableEq, Repr

/-- Identity minting for a fresh connection:
user_ plus Date.now() plus a random suffix. -/
def mintUserId (t : Nat) (r : String) : String :=
  "user_" ++ toString t ++ "_" ++ r

/-- Connection handler body (the part that runs synchronously at
connect time, before any rejoin event can arrive): the limit check,
minting of a fresh identity, registration in connectedClients, and the
join notifications.  isRejoining is still false at this point, so the
limit check always applies. -/
def cfConnection (s : CFState) (sid : String) (maxParticipants : Option Int)
    (t : Nat) (r : String) : CFState × List CFEmit :=
  if (match maxParticipants with
      | some m => decide (s.clientCount ≥ m)
      | none => false) then
    (s, [.sessionFullError sid])
  else
    let uid := mintUserId t r
    let s' : CFState :=
      { allClients := fun k =>
          if k = uid then
            some { userId := uid, currentSocketId := some sid, connection_count := 1 }
          else s.allClients k
        connectedClients := fun k =>
          if k = sid then some { isRejoining := false, userId := some uid }
          else s.connectedClients k
        clientCount := s.clientCount + 1 }
    (s', [.userJoined sid uid s'.clientCount, .welcome sid uid])

/-- Rejoin handler: a truthy claimed userId present in allClients
succeeds (identity record rebound to the new socket, connection_count
bumped with the JS fallback (count or 1) + 1, rejoin-success unicast and
user-rejoined broadcast); anything else gets rejoin-error and the
handler returns without touching any state. -/
def cfRejoin (s : CFState) (sid : String) (claimed : Option String) :
    CFState × List CFEmit :=
  match claimed with
  | some uid =>
    if uid ≠ "" then
      match s.allClients uid with
      | some prev =>
        let bumped := (if prev.connection_count = 0 then 1 else prev.connection_count) + 1
        let rec' : CFClientRecord :=
          { prev with
              currentSocketId := some sid
              connection_count := bumped }
        let s' : CFState :=
          { allClients := fun k => if k = uid then some rec' else s.allClients k
            connectedClients := fun k =>
              if k = sid then some { isRejoining := true, userId := some uid }
              else s.connectedClients k
            clientCount := s.clientCount }
        (s', [.rejoinSuccess sid uid, .userRejoined sid uid (s.clientCount + 1)])
      | none => (s, [.rejoinError sid])
    else (s, [.rejoinError sid])
  | none => (s, [.rejoinError sid])

/-- Disconnect handler of the session server: drop the socket from
connectedClients, decrement the counter, and mark the identity record
as disconnected while keeping it in allClients for a later rejoin. -/
def cfDisconnect (s : CFState) (sid : String) : CFState × List CFEmit :=
  let client := s.connectedClients sid
  let s1 : CFState :=
    { s with
        clientCount := s.clientCount - 1
        connectedClients := fun k => if k = sid then none else s.connectedClients k }
  let payloadUid : Option String :=
    match client with
    | some c => c.userId
    | none => some "Unknown"
  let s2 : CFState :=
    match client with
    | some c =>
      if truthy c.userId then
        match c.userId with
        | some uid =>
          match s1.allClients uid with
          | some hist =>
            { s1 with
                allClients := fun k =>
                  if k = uid then some { hist with currentSocketId := none }
                  else s1.allClients k }
          | none => s1
        | none => s1
      else s1
    | none => s1
  (s2, [.userLeft sid payloadUid s2.clientCount])

/-- Concrete session-server state used by witnesses: one previously
issued identity user_1_ab, currently disconnected, one live socket. -/
def cfExState : CFState :=
  { allClients := fun k =>
      if k = "user_1_ab" then
        some { userId := "user_1_ab", currentSocketId := none, connection_count := 3 }
      else none
    connectedClients := fun k =>
      if k = "s2" then some { isRejoining := false, userId := some "user_9_cd" } else none
    clientCount := 1 }

/-! ## Shared Map and socket.io helpers -/

/-- Map.get on an association list keyed by strings. -/
def mapGet (m : List (String × α)) (k : String) : Option α :=
  match m with
  | [] => none
  | (k', v) :: rest => if k' = k then some v else mapGet rest k

/-- Map.set: replace in place when the key exists, append otherwise. -/
def mapSet (m : List (String × α)) (k : String) (v : α) : List (String × α) :=
  match m with
  | [] => [(k, v)]
  | (k', v') :: rest => if k' = k then (k, v) :: rest else (k', v') :: mapSet rest k v

/-- Map.delete: drop the entry with the key. -/
def mapDel (m : List (String × α)) (k : String) : List (String × α) :=
  match m with
  | [] => []
  | (k', v') :: rest => if k' = k then rest else (k', v') :: mapDel rest k

/-- Socket.io room table: room key to the sockets currently joined.
socket.join is idempotent. -/
def sioJoin (sio : String → List String) (roomId sid : String) :
    String → List String :=
  fun k => if k = roomId then strSetAdd (sio roomId) sid else sio k

/-- socket.leave for one room. -/
def sioLeave (sio : String → List String) (roomId sid : String) :
    String → List String :=
  fun k => if k = roomId then (sio roomId).erase sid else sio k

/-! ## ChatController (second half of src/controller/taskBoardController.js)

State: activeRooms (roomId to users Map and message buffer), userSessions
(socketId to the joined room and user payload), typingUsers (roomId to
the set of typing user ids), plus the socket.io room table that decides
delivery sets. -/

structure ChatUserInfo where
  id : String
  name : String
  email : String
deriving DecidableEq, Repr

structure ChatRoomUser where
  id : String
  name : String
  email : String
  socketId : String
  joinedAt : String
deriving DecidableEq, Repr

structure MessageData where
  id : String
  text : String
  userId : String
  userName : String
  userEmail : String
  timestamp : String
  roomId : String
deriving DecidableEq, Repr

structure ChatRoomData where
  users : List (String × ChatRoomUser)
  messages : List MessageData
deriving DecidableEq, Repr

structure CCState where
  activeRooms : String → Option ChatRoomData
  userSessions : String → Option (String × ChatUserInfo)
  typingUsers : String → Option (List String)
  sio : String → List String

inductive CCEvent where
  | roomState (messages : List MessageData) (onlineUsers : List ChatRoomUser)
  | userJoined (user : ChatRoomUser) (onlineUsers : List ChatRoomUser)
  | newMessage (m : MessageData)
  | userTyping (userId userName : String) (isTyping : Bool)
  | userLeft (user : ChatRoomUser) (onlineUsers : List ChatRoomUser)
deriving DecidableEq, Repr

/-- One emit with its delivery set already resolved: io.to(room) targets
every socket of the room, socket.to(room) every socket but the sender,
socket.emit only the socket itself. -/
structure CCEmit where
  targets : List String
  event : CCEvent
deriving DecidableEq, Repr

/-- handleUserLeave: bail out on a falsy or unknown room; otherwise drop
the socket from the room Map and from userSessions, clear its typing
flag, notify the rest, garbage-collect the room when its users Map
emptied, and finally socket.leave.  The early return skips even the
socket.leave call. -/
def handleUserLeave (s : CCState) (sid roomId : String) : CCState × List CCEmit :=
  if roomId = "" then (s, [])
  else
    match s.activeRooms roomId with
    | none => (s, [])
    | some roomData =>
      match mapGet roomData.users sid with
      | none => ({ s with sio := sioLeave s.sio roomId sid }, [])
      | some user =>
        let users' := mapDel roomData.users sid
        let activeRooms' : String → Option ChatRoomData := fun k =>
          if k = roomId then
            (if users'.isEmpty then none
             else some { users := users', messages := roomData.messages })
          else s.activeRooms k
        let typingUsers' : String → Option (List String) := fun k =>
          if k = roomId then
            (if users'.isEmpty then none
             else (s.typingUsers roomId).map (fun l => l.erase user.id))
          else s.typingUsers k
        ({ activeRooms := activeRooms'
           userSessions := fun k => if k = sid then none else s.userSessions k
           typingUsers := typingUsers'
           sio := sioLeave s.sio roomId sid },
         [⟨(s.sio roomId).filter (fun x => x ≠ sid),
           .userLeft user (users'.map Prod.snd)⟩])

/-- join-room handler: leave the previous room recorded in userSessions
(if any), socket.join the new room, record the session, create the room
record lazily, put the member into the users Map, send the joiner the
room state (history loaded from the store plus the roster) and announce
the join to the others. -/
def joinRoom (s : CCState) (sid : String) (user : ChatUserInfo) (roomId : String)
    (history : List MessageData) (now : String) : CCState × List CCEmit :=
  let leave :=
    match s.userSessions sid with
    | some ru => handleUserLeave s sid ru.1
    | none => (s, [])
  let s0 := leave.1
  let sio' := sioJoin s0.sio roomId sid
  let roomData := (s0.activeRooms roomId).getD { users := [], messages := [] }
  let newUser : ChatRoomUser :=
    { id := user.id, name := user.name, email := user.email,
      socketId := sid, joinedAt := now }
  let users' := mapSet roomData.users sid newUser
  let s1 : CCState :=
    { activeRooms := fun k =>
        if k = roomId then some { roomData with users := users' }
        else s0.activeRooms k
      userSessions := fun k =>
        if k = sid then some (roomId, user) else s0.userSessions k
      typingUsers := s0.typingUsers
      sio := sio' }
  (s1, leave.2 ++
    [⟨[sid], .roomState history (users'.map Prod.snd)⟩,
     ⟨(sio' roomId).filter (fun x => x ≠ sid),
      .userJoined newUser (users'.map Prod.snd)⟩])

/-- disconnect handler: same cleanup path as an explicit leave, keyed by
the session record. -/
def ccDisconnect (s : CCState) (sid : String) : CCState × List CCEmit :=
  match s.userSessions sid with
  | some ru => handleUserLeave s sid ru.1
  | none => (s, [])

/-- Server-assigned message id: Date.now().toString() plus a random
suffix. -/
def mkMessageId (now_ms : Nat) (rand : String) : String :=
  toString now_ms ++ "-" ++ rand

/-- Actions of the send-message handler in execution order: the awaited
best-effort store write (ok records whether the insert succeeded), then
the emits. -/
inductive CCAction where
  | persistMsg (m : MessageData) (ok : Bool)
  | emit (e : CCEmit)
deriving DecidableEq, Repr

/-- messageData as the send-message handler builds it: server-assigned
id and timestamp, user fields copied from the payload. -/
def mkMessageData (roomId text : String) (user : ChatUserInfo)
    (now_ms : Nat) (rand iso : String) : MessageData :=
  { id := mkMessageId now_ms rand, text := text,
    userId := user.id, userName := user.name, userEmail := user.email,
    timestamp := iso, roomId := roomId }

/-- send-message handler: build messageData with the server-assigned id
and timestamp, await saveMessage (which swallows every store error),
append to the in-memory buffer capped at the last 100 entries, broadcast
new-message to the whole room through io.to (sender included), and clear
the typing indicator. -/
def sendMessage (s : CCState) (sid roomId text : String) (user : ChatUserInfo)
    (now_ms : Nat) (rand iso : String) (persistOk : Bool) :
    CCState × List CCAction :=
  let m : MessageData := mkMessageData roomId text user now_ms rand iso
  let s1 : CCState :=
    match s.activeRooms roomId with
    | some rd =>
      let ms := rd.messages ++ [m]
      let ms' := if ms.length > 100 then ms.drop (ms.length - 100) else ms
      { s with activeRooms := fun k =>
          if k = roomId then some { rd with messages := ms' } else s.activeRooms k }
    | none => s
  let s2 : CCState :=
    { s1 with typingUsers := fun k =>
        if k = roomId then (s1.typingUsers roomId).map (fun l => l.erase user.id)
        else s1.typingUsers k }
  (s2, [.persistMsg m persistOk,
        .emit ⟨s1.sio roomId, .newMessage m⟩,
        .emit ⟨(s1.sio roomId).filter (fun x => x ≠ sid),
               .userTyping user.id user.name false⟩])

/-- Test for the new-message emit among the handler actions. -/
def isNewMessageEmit : CCAction → Bool
  | .emit ⟨_, .newMessage _⟩ => true
  | _ => false

/-- Test for the store write among the handler actions. -/
def isPersist : CCAction → Bool
  | .persistMsg _ _ => true
  | _ => false

/-- Relay-before-persistence in the sense of the spec: the new-message
emit occurs at a strictly earlier position of the handler than the store
write. -/
def relayBeforePersist (acts : List CCAction) : Bool :=
  match acts.findIdx? isNewMessageEmit, acts.findIdx? isPersist with
  | some i, some j => i < j
  | _, _ => false

/-! ## Read receipts (ChatController.markMessageAsRead)

The durable store of message_read_receipts rows, modelled as the list of
inserted rows; the handler first selects any row with the same
message_id and user_id and only inserts when none exists. -/

structure ReadReceipt where
  message_id : String
  user_id : String
  read_at : String
deriving DecidableEq, Repr

/-- Existence check of markMessageAsRead. -/
def hasReceipt (store : List ReadReceipt) (mid uid : String) : Bool :=
  store.any (fun r => r.message_id == mid && r.user_id == uid)

/-- markMessageAsRead: insert a receipt row unless one already exists
for the (messageId, userId) pair; never an error either way. -/
def markMessageAsRead (store : List ReadReceipt) (mid uid tstamp : String) :
    List ReadReceipt :=
  if hasReceipt store mid uid then store
  else store ++ [{ message_id := mid, user_id := uid, read_at := tstamp }]

/-- Number of receipt rows for a (messageId, userId) pair. -/
def countReceipts (store : List ReadReceipt) (mid uid : String) : Nat :=
  (store.filter (fun r => r.message_id == mid && r.user_id == uid)).length

/-! ## Whiteboard controller (src/controller/whiteboardController.js)

whiteboards maps roomId to the canvas JSON snapshot, roomUsers maps
roomId to a JS Set of user objects (a plain list: fresh object literals
never collapse), and each live socket carries the closure variables
currentRoom, currentUserId, currentUserName. -/

structure CanvasJSON where
  objects : List String
deriving DecidableEq, Repr

structure WBUserEntry where
  userId : String
  userName : String
  socketId : String
deriving DecidableEq, Repr

structure WBConn where
  room : Option String
  uid : Option String
  name : Option String
deriving DecidableEq, Repr

structure WBState where
  whiteboards : String → Option CanvasJSON
  roomUsers : String → Option (List WBUserEntry)
  conns : String → Option WBConn
  sio : String → List String

inductive WBEvent where
  | userJoinedWhiteboard (userId userName : String)
  | whiteboardState (canvas : CanvasJSON)
  | onlineUsers (users : List (String × String))
  | canvasObjectAdded (canvas : CanvasJSON) (userId : Option String)
  | userLeftWhiteboard (userId : Option String) (userName : Option String)
deriving DecidableEq, Repr

structure WBEmit where
  targets : List String
  event : WBEvent
deriving DecidableEq, Repr

/-- Removal by socket id of the first matching entry, as the for-of
loop with break does on the JS Set. -/
def removeFirstWB : List WBUserEntry → String → List WBUserEntry
  | [], _ => []
  | e :: rest, sid =>
    if e.socketId = sid then rest else e :: removeFirstWB rest sid

/-- Connection handler prologue: fresh closure variables for the
socket. -/
def wbConnect (s : WBState) (sid : String) : WBState :=
  { s with conns := fun k =>
      if k = sid then some { room := none, uid := none, name := none }
      else s.conns k }

/-- join-whiteboard handler: set the closure variables, socket.join,
lazily create the canvas and the user set (independently of each other),
append the user entry, and emit join notice, canvas state and roster. -/
def joinWhiteboard (s : WBState) (sid roomId userId userName : String) :
    WBState × List WBEmit :=
  match s.conns sid with
  | none => (s, [])
  | some _ =>
    let sio' := sioJoin s.sio roomId sid
    let wb := (s.whiteboards roomId).getD { objects := [] }
    let users := (s.roomUsers roomId).getD []
    let users' := users ++ [{ userId := userId, userName := userName, socketId := sid }]
    ({ whiteboards := fun k => if k = roomId then some wb else s.whiteboards k
       roomUsers := fun k => if k = roomId then some users' else s.roomUsers k
       conns := fun k =>
         if k = sid then some { room := some roomId, uid := some userId, name := some userName }
         else s.conns k
       sio := sio' },
     [⟨(sio' roomId).filter (fun x => x ≠ sid), .userJoinedWhiteboard userId userName⟩,
      ⟨[sid], .whiteboardState wb⟩,
      ⟨sio' roomId, .onlineUsers (users'.map (fun e => (e.userId, e.userName)))⟩])

/-- canvas-object-added handler: bail out when no room was joined,
replace the server-side snapshot, and broadcast to every other socket of
the room (sender excluded). -/
def wbCanvasObjectAdded (s : WBState) (sid : String) (json : CanvasJSON) :
    WBState × List WBEmit :=
  match s.conns sid with
  | none => (s, [])
  | some c =>
    match c.room with
    | some r =>
      if r ≠ "" then
        ({ s with whiteboards := fun k => if k = r then some json else s.whiteboards k },
         [⟨(s.sio r).filter (fun x => x ≠ sid), .canvasObjectAdded json c.uid⟩])
      else (s, [])
    | none => (s, [])

/-- disconnect handler of the whiteboard: remove the first entry of the
room set carrying this socket id, notify and re-broadcast the roster,
delete the user set when it emptied, and deliberately keep the canvas
snapshot (the source comments that the data persists for rejoining
users).  socket.io drops the socket from its rooms before the handler
runs. -/
def wbDisconnect (s : WBState) (sid : String) : WBState × List WBEmit :=
  match s.conns sid with
  | none => (s, [])
  | some c =>
    let sio' : String → List String := fun k => (s.sio k).erase sid
    let conns' : String → Option WBConn := fun k => if k = sid then none else s.conns k
    match c.room, c.uid with
    | some r, some u =>
      if r ≠ "" ∧ u ≠ "" then
        match s.roomUsers r with
        | some users =>
          let users' := removeFirstWB users sid
          ({ whiteboards := s.whiteboards
             roomUsers := fun k =>
               if k = r then (if users'.isEmpty then none else some users')
               else s.roomUsers k
             conns := conns'
             sio := sio' },
           [⟨(sio' r).filter (fun x => x ≠ sid), .userLeftWhiteboard (some u) c.name⟩,
            ⟨sio' r, .onlineUsers (users'.map (fun e => (e.userId, e.userName)))⟩])
        | none => ({ s with conns := conns', sio := sio' }, [])
      else ({ s with conns := conns', sio := sio' }, [])
    | _, _ => ({ s with conns := conns', sio := sio' }, [])

/-- Empty whiteboard server state. -/
def wbInit : WBState :=
  { whiteboards := fun _ => none
    roomUsers := fun _ => none
    conns := fun _ => none
    sio := fun _ => [] }

/-! ## TaskBoard controller (first half of src/controller/taskBoardController.js)

Same shape as the whiteboard, except that the board and the user set of
a room are created together and deleted together. -/

structure TaskItem where
  id : String
  text : String
  createdBy : String
deriving DecidableEq, Repr

structure TBColumn where
  id : String
  name : String
  items : List TaskItem
deriving DecidableEq, Repr

structure TBUserEntry where
  userId : String
  userName : String
  socketId : String
deriving DecidableEq, Repr

structure TBConn where
  room : Option String
  uid : Option String
  name : Option String
deriving DecidableEq, Repr

structure TBState where
  taskBoards : String → Option (List TBColumn)
  roomUsers : String → Option (List TBUserEntry)
  conns : String → Option TBConn
  sio : String → List String

/-- getDefaultBoard of the source. -/
def getDefaultBoard : List TBColumn :=
  [{ id := "todo", name := "To do", items := [] },
   { id := "doing", name := "In progress", items := [] },
   { id := "done", name := "Done", items := [] }]

inductive TBEvent where
  | userJoined (userId userName : String)
  | boardUpdated (board : List TBColumn)
  | onlineUsers (users : List (String × String))
  | userLeft (userId : Option String) (userName : Option String)
deriving DecidableEq, Repr

structure TBEmit where
  targets : List String
  event : TBEvent
deriving DecidableEq, Repr

/-- Removal by socket id of the first matching entry. -/
def removeFirstTB : List TBUserEntry → String → List TBUserEntry
  | [], _ => []
  | e :: rest, sid =>
    if e.socketId = sid then rest else e :: removeFirstTB rest sid

/-- Connection handler prologue of the taskboard namespace. -/
def tbConnect (s : TBState) (sid : String) : TBState :=
  { s with conns := fun k =>
      if k = sid then some { room := none, uid := none, name := none }
      else s.conns k }

/-- join-taskboard handler: set the closure variables, socket.join,
create board and user set together when the board is missing (the board
from the client payload when truthy, else the default), append the user
entry (a JS Set of fresh objects: always an append, never a
deduplication), and emit join notice, board and roster.  Nothing removes
the socket from a previously joined taskboard room. -/
def joinTaskboard (s : TBState) (sid roomId userId userName : String)
    (currentBoard : Option (List TBColumn)) : TBState × List TBEmit :=
  match s.conns sid with
  | none => (s, [])
  | some _ =>
    let sio' := sioJoin s.sio roomId sid
    let fresh := (s.taskBoards roomId).isNone
    let board := (s.taskBoards roomId).getD (currentBoard.getD getDefaultBoard)
    let users := if fresh then [] else (s.roomUsers roomId).getD []
    let users' := users ++ [{ userId := userId, userName := userName, socketId := sid }]
    ({ taskBoards := fun k => if k = roomId then some board else s.taskBoards k
       roomUsers := fun k => if k = roomId then some users' else s.roomUsers k
       conns := fun k =>
         if k = sid then some { room := some roomId, uid := some userId, name := some userName }
         else s.conns k
       sio := sio' },
     [⟨(sio' roomId).filter (fun x => x ≠ sid), .userJoined userId userName⟩,
      ⟨[sid], .boardUpdated board⟩,
      ⟨sio' roomId, .onlineUsers (users'.map (fun e => (e.userId, e.userName)))⟩])

/-- disconnect handler of the taskboard: remove the first entry of the
room carrying this socket id, and when the set emptied delete both the
board and the user set. -/
def tbDisconnect (s : TBState) (sid : String) : TBState × List TBEmit :=
  match s.conns sid with
  | none => (s, [])
  | some c =>
    let sio' : String → List String := fun k => (s.sio k).erase sid
    let conns' : String → Option TBConn := fun k => if k = sid then none else s.conns k
    match c.room, c.uid with
    | some r, some u =>
      if r ≠ "" ∧ u ≠ "" then
        match s.roomUsers r with
        | some users =>
          let users' := removeFirstTB users sid
          let emits : List TBEmit :=
            [⟨(sio' r).filter (fun x => x ≠ sid), .userLeft (some u) c.name⟩,
             ⟨sio' r, .onlineUsers (users'.map (fun e => (e.userId, e.userName)))⟩]
          if users'.isEmpty then
            ({ taskBoards := fun k => if k = r then none else s.taskBoards k
               roomUsers := fun k => if k = r then none else s.roomUsers k
               conns := conns'
               sio := sio' }, emits)
          else
            ({ taskBoards := s.taskBoards
               roomUsers := fun k => if k = r then some users' else s.roomUsers k
               conns := conns'
               sio := sio' }, emits)
        | none => ({ s with conns := conns', sio := sio' }, [])
      else ({ s with conns := conns', sio := sio' }, [])
    | _, _ => ({ s with conns := conns', sio := sio' }, [])

/-- Connection-level operations a taskboard trace is built from. -/
inductive TBOp where
  | connect (sid : String)
  | join (sid roomId userId userName : String) (board : Option (List TBColumn))
  | disconnect (sid : String)

/-- One trace step (emits dropped). -/
def tbStep (s : TBState) : TBOp → TBState
  | .connect sid => tbConnect s sid
  | .join sid roomId userId userName board =>
      (joinTaskboard s sid roomId userId userName board).1
  | .disconnect sid => (tbDisconnect s sid).1

/-- Trace execution. -/
def tbRun (s : TBState) : List TBOp → TBState
  | [] => s
  | op :: rest => tbRun (tbStep s op) rest

/-- Well-formed traces for the amended roster claims: sockets connect
before they act, connect at most once, and join at most one room with a
truthy room id and user id (repeated joins are exactly what the
counterexample exploits). -/
def tbWF (s : TBState) : List TBOp → Bool
  | [] => true
  | op :: rest =>
    (match op with
     | .connect sid => (s.conns sid).isNone
     | .join sid roomId userId _ _ =>
        (match s.conns sid with
         | some c => c.room.isNone
         | none => false) && roomId ≠ "" && userId ≠ ""
     | .disconnect sid => (s.conns sid).isSome) && tbWF (tbStep s op) rest

/-- Empty taskboard server state. -/
def tbInit : TBState :=
  { taskBoards := fun _ => none
    roomUsers := fun _ => none
    conns := fun _ => none
    sio := fun _ => [] }

/-! ## Document sync relay (src/controller/webrtcSignaling.js)

WebRTCSignalingServer keeps documentRooms (room name to the set of
connections) and activeConnections (connection id to its room).  The
message handler relays each frame verbatim to every other open
connection of the same room; the server stores no update log. -/

structure WSConnInfo where
  roomName : String
  connectedAt : String
deriving DecidableEq, Repr

structure WSState where
  documentRooms : String → Option (List String)
  activeConnections : String → Option WSConnInfo
  /-- readyState of a socket: true models WebSocket.OPEN. -/
  openConn : String → Bool

/-- Frames a connection can receive: the welcome JSON sent at connect
time, or an opaque relayed payload (byte sequence). -/
inductive WSMsg where
  | welcome (roomName connId : String)
  | data (payload : List Nat)
deriving DecidableEq, Repr

/-- Connection handler: register the connection in its room (creating
the room on first use), track it, and send the welcome frame to the new
connection alone.  No stored content is replayed. -/
def wsConnect (s : WSState) (connId roomName at' : String) :
    WSState × List (String × WSMsg) :=
  let members := (s.documentRooms roomName).getD []
  ({ documentRooms := fun k =>
       if k = roomName then some (members ++ [connId]) else s.documentRooms k
     activeConnections := fun k =>
       if k = connId then some { roomName := roomName, connectedAt := at' }
       else s.activeConnections k
     openConn := fun k => if k = connId then true else s.openConn k },
   [(connId, .welcome roomName connId)])

/-- Message handler: deliver the payload unchanged to every other open
member of the room of the sender; the state is untouched. -/
def wsMessage (s : WSState) (connId : String) (payload : List Nat) :
    List (String × WSMsg) :=
  match s.activeConnections connId with
  | none => []
  | some info =>
    match s.documentRooms info.roomName with
    | none => []
    | some members =>
      (members.filter (fun c => !(c == connId) && s.openConn c)).map
        (fun c => (c, WSMsg.data payload))

/-- handleDisconnection: drop the connection from tracking and from its
room, and delete the room when it emptied. -/
def wsClose (s : WSState) (connId roomName : String) : WSState :=
  let s1 : WSState :=
    { s with
        activeConnections := fun k => if k = connId then none else s.activeConnections k
        openConn := fun k => if k = connId then false else s.openConn k }
  match s.documentRooms roomName with
  | none => s1
  | some members =>
    let members' := members.erase connId
    { s1 with documentRooms := fun k =>
        if k = roomName then (if members'.isEmpty then none else some members')
        else s1.documentRooms k }

inductive WSOp where
  | connect (connId roomName at' : String)
  | message (connId : String) (payload : List Nat)
  | close (connId roomName : String)

/-- One step, returning the frames delivered during it. -/
def wsStep (s : WSState) : WSOp → WSState × List (String × WSMsg)
  | .connect connId roomName at' => wsConnect s connId roomName at'
  | .message connId payload => (s, wsMessage s connId payload)
  | .close connId roomName => (wsClose s connId roomName, [])

/-- Trace execution accumulating every delivered frame in order. -/
def wsRun (s : WSState) : List WSOp → WSState × List (String × WSMsg)
  | [] => (s, [])
  | op :: rest =>
    let st := wsStep s op
    let rst := wsRun st.1 rest
    (rst.1, st.2 ++ rst.2)

/-- Empty signaling server state. -/
def wsInit : WSState :=
  { documentRooms := fun _ => none
    activeConnections := fun _ => none
    openConn := fun _ => false }

/-- Trace for the C6 counterexample: connection A joins room r and sends
the update bytes 1,2,3; then connection B joins the same room. -/
def wsExOps : List WSOp :=
  [.connect "A" "r" "t0", .message "A" [1, 2, 3], .connect "B" "r" "t1"]

/-- Empty ChatController state. -/
def ccInit : CCState :=
  { activeRooms := fun _ => none
    userSessions := fun _ => none
    typingUsers := fun _ => none
    sio := fun _ => [] }

/-- Concrete chat user for witnesses and counterexamples. -/
def ccExUser : ChatUserInfo :=
  { id := "u1", name := "Ann", email := "ann@x" }

/-- Concrete signaling state for witnesses: connections A and B sit in
room r, both open. -/
def wsExSt : WSState :=
  { documentRooms := fun k => if k = "r" then some ["A", "B"] else none
    activeConnections := fun k =>
      if k = "A" then some { roomName := "r", connectedAt := "t" }
      else if k = "B" then some { roomName := "r", connectedAt := "t" }
      else none
    openConn := fun k => k == "A" || k == "B" }

/-! ## Trace machinery for the chat rooms (ChatController) -/

/-- Connection-level operations a chat trace is built from. -/
inductive CCOp where
  | joinRoom (sid : String) (user : ChatUserInfo) (roomId : String)
      (history : List MessageData) (now : String)
  | leaveRoom (sid roomId : String)
  | disconnect (sid : String)

/-- One chat trace step (emits dropped). -/
def ccStep (s : CCState) : CCOp → CCState
  | .joinRoom sid user roomId history now => (joinRoom s sid user roomId history now).1
  | .leaveRoom sid roomId => (handleUserLeave s sid roomId).1
  | .disconnect sid => (ccDisconnect s sid).1

/-- Chat trace execution. -/
def ccRun (s : CCState) : List CCOp → CCState
  | [] => s
  | op :: rest => ccRun (ccStep s op) rest

/-- Per-operation check of well-formed chat traces: join-room events
carry a truthy room id. -/
def ccOpOk : CCOp → Bool
  | .joinRoom _ _ roomId _ _ => roomId ≠ ""
  | .leaveRoom _ _ => true
  | .disconnect _ => true

/-- Well-formed chat traces: every operation passes ccOpOk. -/
def ccWF (ops : List CCOp) : Bool := ops.all ccOpOk

/-- Invariant tying the chat room rosters to userSessions: every room is
keyed by a truthy id and holds a nonempty, duplicate-free users Map
whose keys all point back to this room through userSessions, and every
session record points to a room that contains its socket. -/
def ccInv (s : CCState) : Prop :=
  (∀ r rd, s.activeRooms r = some rd → r ≠ "" ∧ rd.users ≠ [] ∧
     (rd.users.map Prod.fst).Nodup ∧
     ∀ p ∈ rd.users, ∃ u, s.userSessions p.1 = some (r, u)) ∧
  (∀ sid ru, s.userSessions sid = some ru →
     ∃ rd, s.activeRooms ru.1 = some rd ∧ (mapGet rd.users sid).isSome)

/-! ## Trace invariant for the taskboard rooms -/

/-- Invariant of the taskboard registry on well-formed traces: every
roster entry belongs to a live connection whose closure variables point
at this room, every live connection that points at a room has exactly
its entry there, rosters are duplicate-free by socket id, and board and
roster exist for exactly the same room keys. -/
def tbInv (s : TBState) : Prop :=
  (∀ r us, s.roomUsers r = some us → r ≠ "" ∧ us ≠ [] ∧
     (us.map TBUserEntry.socketId).Nodup ∧
     ∀ e ∈ us, e.userId ≠ "" ∧ ∃ c, s.conns e.socketId = some c ∧ c.room = some r ∧
       c.uid = some e.userId ∧ c.name = some e.userName) ∧
  (∀ sid c r, s.conns sid = some c → c.room = some r →
     ∃ us, s.roomUsers r = some us ∧ ∃ e, e ∈ us ∧ e.socketId = sid) ∧
  (∀ r, (s.taskBoards r).isSome ↔ (s.roomUsers r).isSome)

/-- Trace for the C1 counterexample: the same connection joins the same
taskboard room twice. -/
def tbDupOps : List TBOp :=
  [.connect "s1", .join "s1" "r" "u" "n" none, .join "s1" "r" "u" "n" none]

/-- Trace for the C7 counterexample: one connection joins taskboard room
t1 and then t2 without disconnecting. -/
def tbTwoRoomOps : List TBOp :=
  [.connect "s1", .join "s1" "t1" "u" "n" none, .join "s1" "t2" "u" "n" none]

/-- Well-formed two-member trace used by the C1 and C2 witnesses. -/
def tbExOps : List TBOp :=
  [.connect "s1", .join "s1" "r" "u" "n" none,
   .connect "s2", .join "s2" "r" "v" "m" none,
   .disconnect "s1"]

/-- Whiteboard state after its sole member joins room wr and
disconnects again. -/
def wbSeqState : WBState :=
  (wbDisconnect (joinWhiteboard (wbConnect wbInit "w1") "w1" "wr" "u" "n").1 "w1").1

/-- Concrete whiteboard state for the C4 witness: sockets w1 and w2 sit
in room wr. -/
def wbExSt : WBState :=
  { whiteboards := fun k => if k = "wr" then some { objects := ["o1"] } else none
    roomUsers := fun k =>
      if k = "wr" then
        some [{ userId := "u9", userName := "Wb", socketId := "w1" },
              { userId := "u8", userName := "Vb", socketId := "w2" }]
      else none
    conns := fun k =>
      if k = "w1" then some { room := some "wr", uid := some "u9", name := some "Wb" }
      else if k = "w2" then some { room := some "wr", uid := some "u8", name := some "Vb" }
      else none
    sio := fun k => if k = "wr" then ["w1", "w2"] else [] }

/-- Concrete chat state for the C4 witness: sockets s1 and s2 joined
room r1. -/
def ccExSt : CCState :=
  { activeRooms := fun k =>
      if k = "r1" then
        some { users :=
                 [("s1", { id := "u1", name := "Ann", email := "ann@x",
                           socketId := "s1", joinedAt := "T0" }),
                  ("s2", { id := "u2", name := "Bob", email := "bob@x",
                           socketId := "s2", joinedAt := "T0" })]
               messages := [] }
      else none
    userSessions := fun k =>
      if k = "s1" then some ("r1", ccExUser)
      else if k = "s2" then some ("r1", { id := "u2", name := "Bob", email := "bob@x" })
      else none
    typingUsers := fun _ => none
    sio := fun k => if k = "r1" then ["s1", "s2"] else [] }

/-! ## Theorems -/

/-! ### Helper lemmas on the Map and Set embeddings -/

theorem mapGet_some_mem {α : Type} {m : List (String × α)} {k : String} {v : α}
    (h : mapGet m k = some v) : (k, v) ∈ m := by
  induction m with
  | nil => simp [mapGet] at h
  | cons p rest ih =>
    rw [mapGet] at h
    by_cases hk : p.1 = k
    · rw [if_pos hk] at h
      have hpv : p = (k, v) := Prod.ext hk (Option.some.inj h)
      exact List.mem_cons.mpr (Or.inl hpv.symm)
    · rw [if_neg hk] at h
      exact List.mem_cons_of_mem p (ih h)

theorem mapGet_of_mem {α : Type} {m : List (String × α)} {p : String × α}
    (hnd : (m.map Prod.fst).Nodup) (hm : p ∈ m) : mapGet m p.1 = some p.2 := by
  induction m with
  | nil => exact absurd hm (List.not_mem_nil p)
  | cons q rest ih =>
    rw [List.map_cons, List.nodup_cons] at hnd
    rcases List.mem_cons.mp hm with heq | htl
    · subst heq
      rw [mapGet, if_pos rfl]
    · rw [mapGet]
      by_cases hk : q.1 = p.1
      · exact absurd (hk ▸ List.mem_map_of_mem Prod.fst htl) hnd.1
      · rw [if_neg hk]
        exact ih hnd.2 htl

theorem mapGet_mapSet_self {α : Type} (m : List (String × α)) (k : String) (v : α) :
    mapGet (mapSet m k v) k = some v := by
  induction m with
  | nil => simp [mapSet, mapGet]
  | cons q rest ih =>
    rw [mapSet]
    by_cases hk : q.1 = k
    · rw [if_pos hk, mapGet, if_pos rfl]
    · rw [if_neg hk, mapGet, if_neg hk]
      exact ih

theorem mapGet_mapSet_ne {α : Type} (m : List (String × α)) (k k' : String) (v : α)
    (h : k' ≠ k) : mapGet (mapSet m k v) k' = mapGet m k' := by
  induction m with
  | nil => simp [mapSet, mapGet, Ne.symm h]
  | cons q rest ih =>
    by_cases hk : q.1 = k
    · simp [mapSet, mapGet, hk, Ne.symm h]
    · simp only [mapSet, if_neg hk, mapGet]
      by_cases hq : q.1 = k'
      · rw [if_pos hq, if_pos hq]
      · rw [if_neg hq, if_neg hq]
        exact ih

theorem mapSet_ne_nil {α : Type} (m : List (String × α)) (k : String) (v : α) :
    mapSet m k v ≠ [] := by
  cases m with
  | nil => simp [mapSet]
  | cons q rest =>
    rw [mapSet]
    by_cases hk : q.1 = k
    · rw [if_pos hk]; simp
    · rw [if_neg hk]; simp

theorem mem_mapSet {α : Type} {m : List (String × α)} {k : String} {v : α}
    {p : String × α} (hnd : (m.map Prod.fst).Nodup) (h : p ∈ mapSet m k v) :
    p = (k, v) ∨ (p ∈ m ∧ p.1 ≠ k) := by
  induction m with
  | nil => simp [mapSet] at h; exact Or.inl h
  | cons q rest ih =>
    rw [List.map_cons, List.nodup_cons] at hnd
    rw [mapSet] at h
    by_cases hk : q.1 = k
    · rw [if_pos hk] at h
      rcases List.mem_cons.mp h with heq | htl
      · exact Or.inl heq
      · refine Or.inr ⟨List.mem_cons_of_mem q htl, ?_⟩
        intro hpk
        exact hnd.1 (hk ▸ hpk ▸ List.mem_map_of_mem Prod.fst htl)
    · rw [if_neg hk] at h
      rcases List.mem_cons.mp h with heq | htl
      · subst heq
        exact Or.inr ⟨List.mem_cons_self q rest, hk⟩
      · rcases ih hnd.2 htl with heq | ⟨hm, hne⟩
        · exact Or.inl heq
        · exact Or.inr ⟨List.mem_cons_of_mem q hm, hne⟩

theorem nodup_keys_mapSet {α : Type} {m : List (String × α)} (k : String) (v : α)
    (hnd : (m.map Prod.fst).Nodup) : ((mapSet m k v).map Prod.fst).Nodup := by
  induction m with
  | nil => simp [mapSet]
  | cons q rest ih =>
    rw [List.map_cons, List.nodup_cons] at hnd
    by_cases hk : q.1 = k
    · rw [mapSet, if_pos hk, List.map_cons, List.nodup_cons]
      exact ⟨by rw [← hk]; exact hnd.1, hnd.2⟩
    · rw [mapSet, if_neg hk, List.map_cons, List.nodup_cons]
      constructor
      · intro hmem
        rcases List.mem_map.mp hmem with ⟨p, hp, hp1⟩
        rcases mem_mapSet hnd.2 hp with heq | ⟨hm, _⟩
        · exact hk (by rw [heq] at hp1; exact hp1.symm ▸ rfl)
        · exact hnd.1 (hp1 ▸ List.mem_map_of_mem Prod.fst hm)
      · exact ih hnd.2

theorem mapDel_sublist {α : Type} (m : List (String × α)) (k : String) :
    List.Sublist (mapDel m k) m := by
  induction m with
  | nil => simp [mapDel]
  | cons q rest ih =>
    rw [mapDel]
    by_cases hk : q.1 = k
    · rw [if_pos hk]
      exact List.sublist_cons_self q rest
    · rw [if_neg hk]
      exact List.Sublist.cons₂ q ih

theorem mem_mapDel {α : Type} {m : List (String × α)} {k : String} {p : String × α}
    (h : p ∈ mapDel m k) : p ∈ m :=
  (mapDel_sublist m k).mem h

theorem mem_mapDel_of_ne {α : Type} {m : List (String × α)} {k : String}
    {p : String × α} (hm : p ∈ m) (hne : p.1 ≠ k) : p ∈ mapDel m k := by
  induction m with
  | nil => exact absurd hm (List.not_mem_nil p)
  | cons q rest ih =>
    rw [mapDel]
    rcases List.mem_cons.mp hm with heq | htl
    · subst heq
      rw [if_neg hne]
      exact List.mem_cons_self _ _
    · by_cases hk : q.1 = k
      · rw [if_pos hk]; exact htl
      · rw [if_neg hk]
        exact List.mem_cons_of_mem q (ih htl)

theorem mapGet_mapDel_ne {α : Type} (m : List (String × α)) (k k' : String)
    (h : k' ≠ k) : mapGet (mapDel m k) k' = mapGet m k' := by
  induction m with
  | nil => simp [mapDel]
  | cons q rest ih =>
    rw [mapDel]
    by_cases hk : q.1 = k
    · rw [if_pos hk, mapGet, if_neg]
      rw [hk]
      intro hkk
      exact h hkk.symm
    · rw [if_neg hk, mapGet, mapGet]
      by_cases hq : q.1 = k'
      · rw [if_pos hq, if_pos hq]
      · rw [if_neg hq, if_neg hq]
        exact ih

theorem mapGet_mapDel_self {α : Type} {m : List (String × α)} {k : String}
    (hnd : (m.map Prod.fst).Nodup) : mapGet (mapDel m k) k = none := by
  induction m with
  | nil => simp [mapDel, mapGet]
  | cons q rest ih =>
    rw [List.map_cons, List.nodup_cons] at hnd
    rw [mapDel]
    by_cases hk : q.1 = k
    · rw [if_pos hk]
      cases hg : mapGet rest k with
      | none => rfl
      | some v =>
        exact absurd (hk ▸ List.mem_map_of_mem Prod.fst (mapGet_some_mem hg)) hnd.1
    · rw [if_neg hk, mapGet, if_neg hk]
      exact ih hnd.2

theorem nodup_keys_mapDel {α : Type} {m : List (String × α)} (k : String)
    (hnd : (m.map Prod.fst).Nodup) : ((mapDel m k).map Prod.fst).Nodup :=
  ((mapDel_sublist m k).map Prod.fst).nodup hnd

/-! ### Helper lemmas on first-match removal -/

theorem removeFirstTB_sublist (us : List TBUserEntry) (sid : String) :
    List.Sublist (removeFirstTB us sid) us := by
  induction us with
  | nil => simp [removeFirstTB]
  | cons e rest ih =>
    rw [removeFirstTB]
    by_cases hs : e.socketId = sid
    · rw [if_pos hs]
      exact List.sublist_cons_self e rest
    · rw [if_neg hs]
      exact List.Sublist.cons₂ e ih

theorem mem_removeFirstTB {us : List TBUserEntry} {sid : String} {e : TBUserEntry}
    (h : e ∈ removeFirstTB us sid) : e ∈ us :=
  (removeFirstTB_sublist us sid).mem h

theorem mem_removeFirstTB_of_ne {us : List TBUserEntry} {sid : String}
    {e : TBUserEntry} (hm : e ∈ us) (hne : e.socketId ≠ sid) :
    e ∈ removeFirstTB us sid := by
  induction us with
  | nil => exact absurd hm (List.not_mem_nil e)
  | cons q rest ih =>
    rw [removeFirstTB]
    rcases List.mem_cons.mp hm with heq | htl
    · subst heq
      rw [if_neg hne]
      exact List.mem_cons_self _ _
    · by_cases hq : q.socketId = sid
      · rw [if_pos hq]; exact htl
      · rw [if_neg hq]
        exact List.mem_cons_of_mem q (ih htl)

theorem removeFirstTB_socketId_ne {us : List TBUserEntry} {sid : String}
    {e : TBUserEntry} (hnd : (us.map TBUserEntry.socketId).Nodup)
    (h : e ∈ removeFirstTB us sid) : e.socketId ≠ sid := by
  induction us with
  | nil => simp [removeFirstTB] at h
  | cons q rest ih =>
    rw [List.map_cons, List.nodup_cons] at hnd
    rw [removeFirstTB] at h
    by_cases hq : q.socketId = sid
    · rw [if_pos hq] at h
      intro hes
      exact hnd.1 (hq ▸ hes ▸ List.mem_map_of_mem TBUserEntry.socketId h)
    · rw [if_neg hq] at h
      rcases List.mem_cons.mp h with heq | htl
      · subst heq; exact hq
      · exact ih hnd.2 htl

/-- C9 counterexample: the claim says an already-participant join never
triggers the capacity rejection even at the max_editors limit, but the
capacity check runs before the already-participant check, so user u1,
already the sole participant of a session with max_editors 1, is
rejected with the capacity error instead of the Already joined
success. -/
theorem joinDocumentSession_at_capacity_rejects_existing_participant :
    (joinDocumentSession dcFullState "s1" "u1").2 = DCJoinResult.sessionFull := by
  rfl

/-- C9 amended: joining a document session one already belongs to is
idempotent provided the session is below its max_editors limit: the
handler returns the Already joined success carrying the unchanged
participants_count and leaves the whole state (participants and the
per-user session table) unchanged. -/
theorem joinDocumentSession_already_participant_idempotent
    (s : DCState) (sessionId userId : String) (sess : DocSession)
    (hfind : s.activeSessions sessionId = some sess)
    (hmem : userId ∈ sess.participants)
    (hcap : capacityReached sess = false) :
    joinDocumentSession s sessionId userId =
      (s, .alreadyJoined sess.sessionId sess.documentId sess.participants.length) := by
  unfold joinDocumentSession
  rw [hfind]
  simp [hcap, hmem]

/-- Witness for the C9 amended theorem at a concrete input: a two-seat
variant of the full session, joined again by its existing participant. -/
theorem joinDocumentSession_already_participant_idempotent_witness :
    (({ activeSessions := fun k =>
          if k = "s1" then some { dcFullSession with max_editors := some 2 } else none
        userSessions := fun _ => none } : DCState).activeSessions "s1" =
        some { dcFullSession with max_editors := some 2 }) ∧
    joinDocumentSession
        { activeSessions := fun k =>
            if k = "s1" then some { dcFullSession with max_editors := some 2 } else none
          userSessions := fun _ => none } "s1" "u1" =
      ({ activeSessions := fun k =>
           if k = "s1" then some { dcFullSession with max_editors := some 2 } else none
         userSessions := fun _ => none },
       .alreadyJoined "s1" "d1" 1) :=
  ⟨rfl, joinDocumentSession_already_participant_idempotent _ _ _ _ rfl
    (by decide) (by decide)⟩

/-- C10 confirmed: after leaveDocumentSession removes user u from an
active session, the status becomes inactive exactly when the remaining
participants set is empty and u is not the creator; in particular when
the creator is the last to leave, the status stays active and the
session still passes the active-listing filter. -/
theorem leaveDocumentSession_inactive_iff
    (s : DCState) (sessionId userId : String) (sess : DocSession)
    (hfind : s.activeSessions sessionId = some sess)
    (hactive : sess.status = "active") :
    ∃ sess', ((leaveDocumentSession s sessionId userId).1).activeSessions sessionId
        = some sess' ∧
      sess'.participants = sess.participants.erase userId ∧
      (sess'.status = "inactive" ↔
        (sess.participants.erase userId).isEmpty ∧ sess.creator_id ≠ userId) ∧
      (sess.creator_id = userId → sess'.status = "active" ∧ isListedActive sess' = true) := by
  refine ⟨{ sess with
              participants := sess.participants.erase userId
              status := if (sess.participants.erase userId).isEmpty ∧ sess.creator_id ≠ userId
                        then "inactive" else sess.status }, ?_, rfl, ?_, ?_⟩
  · unfold leaveDocumentSession
    rw [hfind]
    simp
  · by_cases hc : (sess.participants.erase userId).isEmpty ∧ sess.creator_id ≠ userId
    · simp [hc]
    · show (if (sess.participants.erase userId).isEmpty ∧ sess.creator_id ≠ userId
            then "inactive" else sess.status) = "inactive" ↔ _
      rw [if_neg hc, hactive]
      constructor
      · intro h; exact absurd h (by decide)
      · intro h; exact absurd h hc
  · intro hcr
    have hc : ¬((sess.participants.erase userId).isEmpty ∧ sess.creator_id ≠ userId) := by
      intro h; exact h.2 hcr
    simp only [hc, if_neg, hactive, isListedActive]
    exact ⟨rfl, rfl⟩

/-- Witness for the C10 theorem: the creator u1, sole participant of
dcFullSession, leaves; the session stays active. -/
theorem leaveDocumentSession_inactive_iff_witness :
    (dcFullState.activeSessions "s1" = some dcFullSession ∧
      dcFullSession.status = "active") ∧
    ∃ sess', ((leaveDocumentSession dcFullState "s1" "u1").1).activeSessions "s1"
        = some sess' ∧
      sess'.participants = dcFullSession.participants.erase "u1" ∧
      (sess'.status = "inactive" ↔
        (dcFullSession.participants.erase "u1").isEmpty ∧
          dcFullSession.creator_id ≠ "u1") ∧
      (dcFullSession.creator_id = "u1" →
        sess'.status = "active" ∧ isListedActive sess' = true) :=
  ⟨⟨rfl, rfl⟩, leaveDocumentSession_inactive_iff dcFullState "s1" "u1" dcFullSession rfl rfl⟩

/-- C3 confirmed: a rejoin claim whose userId is present in allClients
always succeeds: rejoin-success is emitted first, the identity record is
rebound to the new socket, and its connection_count strictly increases;
a claim whose userId was never issued always fails: rejoin-error is
emitted and the state (presence map, identity table and counter) is
returned untouched.  Issued identities are never the empty string
(mintUserId always begins with user_), which the hypothesis records. -/
theorem cfRejoin_valid_succeeds_unknown_fails
    (s : CFState) (sid uid : String) (huid : uid ≠ "") :
    (∀ prev, s.allClients uid = some prev →
      (cfRejoin s sid (some uid)).2.head? = some (CFEmit.rejoinSuccess sid uid) ∧
      ∃ rec', ((cfRejoin s sid (some uid)).1).allClients uid = some rec' ∧
        prev.connection_count < rec'.connection_count ∧
        rec'.currentSocketId = some sid) ∧
    (s.allClients uid = none →
      cfRejoin s sid (some uid) = (s, [CFEmit.rejoinError sid])) := by
  constructor
  · intro prev hprev
    unfold cfRejoin
    simp only [huid, if_pos, hprev, ne_eq, not_false_eq_true, ite_true]
    constructor
    · rfl
    · refine ⟨{ prev with
                  currentSocketId := some sid
                  connection_count :=
                    (if prev.connection_count = 0 then 1 else prev.connection_count) + 1 },
        by simp, ?_, rfl⟩
      by_cases h0 : prev.connection_count = 0
      · simp [h0]
      · simp [h0]
  · intro hnone
    unfold cfRejoin
    simp only [huid, ne_eq, not_false_eq_true, ite_true, hnone]

/-- Witness for the C3 theorem: state cfExState holds the issued
identity user_1_ab with connection_count 3; a rejoin claim for it from
socket s9 succeeds and bumps the count, while the unknown id user_zz is
rejected without state change. -/
theorem cfRejoin_valid_succeeds_unknown_fails_witness :
    (("user_1_ab" : String) ≠ "" ∧ ("user_zz" : String) ≠ "") ∧
    ((cfRejoin cfExState "s9" (some "user_1_ab")).2.head?
        = some (CFEmit.rejoinSuccess "s9" "user_1_ab") ∧
      ∃ rec', ((cfRejoin cfExState "s9" (some "user_1_ab")).1).allClients "user_1_ab"
          = some rec' ∧
        (3 : Nat) < rec'.connection_count ∧ rec'.currentSocketId = some "s9") ∧
    cfRejoin cfExState "s9" (some "user_zz") = (cfExState, [CFEmit.rejoinError "s9"]) := by
  refine ⟨⟨by decide, by decide⟩, ?_, ?_⟩
  · exact (cfRejoin_valid_succeeds_unknown_fails cfExState "s9" "user_1_ab" (by decide)).1
      { userId := "user_1_ab", currentSocketId := none, connection_count := 3 } rfl
  · exact (cfRejoin_valid_succeeds_unknown_fails cfExState "s9" "user_zz" (by decide)).2 rfl

/-- C8 confirmed: markMessageAsRead is idempotent: a second invocation
with the same (messageId, userId) pair is a no-op returning the store of
the first invocation unchanged, and starting from a store with no row
for the pair, two invocations leave exactly one receipt row. -/
theorem markMessageAsRead_idempotent
    (store : List ReadReceipt) (mid uid t t' : String) :
    markMessageAsRead (markMessageAsRead store mid uid t) mid uid t' =
      markMessageAsRead store mid uid t ∧
    (countReceipts store mid uid = 0 →
      countReceipts (markMessageAsRead (markMessageAsRead store mid uid t) mid uid t')
        mid uid = 1) := by
  have happ : hasReceipt
      (store ++ [{ message_id := mid, user_id := uid, read_at := t }]) mid uid = true := by
    simp [hasReceipt, List.any_append]
  constructor
  · by_cases h : hasReceipt store mid uid
    · simp [markMessageAsRead, h]
    · have hmark : markMessageAsRead store mid uid t
          = store ++ [{ message_id := mid, user_id := uid, read_at := t }] := by
        simp [markMessageAsRead, h]
      rw [hmark, markMessageAsRead, happ]
      simp
  · intro hc
    have h : hasReceipt store mid uid = false := by
      unfold countReceipts at hc
      unfold hasReceipt
      rw [List.length_eq_zero] at hc
      rw [List.any_eq_false]
      intro r hr
      intro hp
      have : r ∈ store.filter (fun r => r.message_id == mid && r.user_id == uid) :=
        List.mem_filter.mpr ⟨hr, hp⟩
      rw [hc] at this
      exact absurd this (List.not_mem_nil r)
    have hmark : markMessageAsRead store mid uid t
        = store ++ [{ message_id := mid, user_id := uid, read_at := t }] := by
      simp [markMessageAsRead, h]
    rw [hmark, markMessageAsRead, happ]
    simp only [if_pos]
    unfold countReceipts at hc ⊢
    rw [List.filter_append, List.length_append, hc]
    simp

/-- Witness for the C8 theorem on the empty store. -/
theorem markMessageAsRead_idempotent_witness :
    (countReceipts [] "m1" "u1" = 0 ∧
      markMessageAsRead (markMessageAsRead [] "m1" "u1" "t1") "m1" "u1" "t2" =
        markMessageAsRead [] "m1" "u1" "t1") ∧
    countReceipts (markMessageAsRead (markMessageAsRead [] "m1" "u1" "t1") "m1" "u1" "t2")
      "m1" "u1" = 1 :=
  ⟨⟨rfl, (markMessageAsRead_idempotent [] "m1" "u1" "t1" "t2").1⟩,
    (markMessageAsRead_idempotent [] "m1" "u1" "t1" "t2").2 rfl⟩

/-- C5 counterexample: the claim says the message is relayed to the room
before its persistence, but send-message awaits saveMessage first: on a
concrete invocation the store write is action 0 and the new-message emit
action 1, so the relay-before-persistence ordering is false. -/
theorem sendMessage_persist_precedes_relay :
    relayBeforePersist (sendMessage ccInit "s1" "r1" "hello" ccExUser 5 "ab" "T" true).2
      = false ∧
    (sendMessage ccInit "s1" "r1" "hello" ccExUser 5 "ab" "T" true).2.findIdx? isPersist
      = some 0 ∧
    (sendMessage ccInit "s1" "r1" "hello" ccExUser 5 "ab" "T" true).2.findIdx?
      isNewMessageEmit = some 1 := by
  refine ⟨?_, ?_, ?_⟩ <;> rfl

/-- C5 amended: send-message awaits the best-effort store write first
(the write is always the first action of the handler), and the
new-message relay to the whole room follows immediately and
unconditionally: saveMessage swallows every store error, so the relay
carrying the server-assigned id happens whether or not the write
succeeded. -/
theorem sendMessage_relay_survives_persist_failure
    (s : CCState) (sid roomId text : String) (user : ChatUserInfo)
    (now_ms : Nat) (rand iso : String) (persistOk : Bool) :
    (sendMessage s sid roomId text user now_ms rand iso persistOk).2.findIdx? isPersist
      = some 0 ∧
    ∃ m, (sendMessage s sid roomId text user now_ms rand iso persistOk).2.get? 1
        = some (.emit ⟨s.sio roomId, .newMessage m⟩) ∧
      m.text = text ∧ m.id = mkMessageId now_ms rand ∧ m.timestamp = iso := by
  have key : (sendMessage s sid roomId text user now_ms rand iso persistOk).2 =
      [.persistMsg (mkMessageData roomId text user now_ms rand iso) persistOk,
       .emit ⟨s.sio roomId, .newMessage (mkMessageData roomId text user now_ms rand iso)⟩,
       .emit ⟨(s.sio roomId).filter (fun x => x ≠ sid),
              .userTyping user.id user.name false⟩] := by
    cases h : s.activeRooms roomId with
    | none => simp [sendMessage, h]
    | some rd => simp [sendMessage, h]
  rw [key]
  exact ⟨rfl, mkMessageData roomId text user now_ms rand iso, rfl, rfl, rfl, rfl⟩

/-- C4 confirmed: a socket.to broadcast (excludeSender true, here the
canvas-object-added relay of the whiteboard) never targets the sender;
an io.to broadcast (excludeSender false, here the confirmed new-message
after send-message) targets the whole socket.io room, hence the sender
whenever it is joined, and the payload carries the server-assigned id
and timestamp. -/
theorem broadcast_excludeSender_semantics
    (wb : WBState) (sid : String) (json : CanvasJSON)
    (cc : CCState) (sid2 roomId text : String) (user : ChatUserInfo)
    (now_ms : Nat) (rand iso : String) (persistOk : Bool)
    (hmem : sid2 ∈ cc.sio roomId) :
    (∀ e ∈ (wbCanvasObjectAdded wb sid json).2, sid ∉ e.targets) ∧
    ∃ m, (sendMessage cc sid2 roomId text user now_ms rand iso persistOk).2.get? 1
        = some (.emit ⟨cc.sio roomId, .newMessage m⟩) ∧
      sid2 ∈ cc.sio roomId ∧
      m.id = mkMessageId now_ms rand ∧ m.timestamp = iso := by
  have hshape : (wbCanvasObjectAdded wb sid json).2 = [] ∨
      ∃ r cuid, (wbCanvasObjectAdded wb sid json).2
        = [⟨(wb.sio r).filter (fun x => x ≠ sid), .canvasObjectAdded json cuid⟩] := by
    cases hc : wb.conns sid with
    | none => exact Or.inl (by simp [wbCanvasObjectAdded, hc])
    | some c =>
      cases hr : c.room with
      | none => exact Or.inl (by simp [wbCanvasObjectAdded, hc, hr])
      | some r =>
        by_cases hre : r ≠ ""
        · exact Or.inr ⟨r, c.uid, by simp [wbCanvasObjectAdded, hc, hr, hre]⟩
        · exact Or.inl (by simp [wbCanvasObjectAdded, hc, hr, hre])
  constructor
  · intro e he
    rcases hshape with hnil | ⟨r, cuid, hone⟩
    · rw [hnil] at he; exact absurd he (List.not_mem_nil e)
    · rw [hone] at he
      simp only [List.mem_singleton] at he
      subst he
      intro habs
      simp only [List.mem_filter, decide_eq_true_eq] at habs
      exact habs.2 rfl
  · obtain ⟨h0, m, hm, _, hid, hts⟩ :=
      sendMessage_relay_survives_persist_failure cc sid2 roomId text user now_ms rand iso persistOk
    exact ⟨m, hm, hmem, hid, hts⟩

/-- C6 counterexample: the claim says a new joiner receives the
accumulated update log replayed in arrival order, but after connection A
sends the update bytes 1,2,3 in room r, the later joiner B receives only
the welcome frame: no stored update is replayed. -/
theorem wsNewJoiner_receives_no_update_log :
    ((wsRun wsInit wsExOps).2.filter (fun d => d.1 == "B")).map Prod.snd
      = [WSMsg.welcome "r" "B"] ∧
    WSMsg.data [1, 2, 3] ∉
      ((wsRun wsInit wsExOps).2.filter (fun d => d.1 == "B")).map Prod.snd := by
  refine ⟨by rfl, ?_⟩
  intro h
  rw [(by rfl : ((wsRun wsInit wsExOps).2.filter (fun d => d.1 == "B")).map Prod.snd
      = [WSMsg.welcome "r" "B"])] at h
  simp at h

/-- C6 amended: a new joiner receives only the welcome frame (the server
keeps no update log and replays nothing), and every frame a member sends
is relayed verbatim to exactly the other open members of its room: no
delivery targets the sender, every payload is the unmodified byte
sequence, and every other open member receives it. -/
theorem ws_welcome_only_and_verbatim_relay
    (s : WSState) (connId roomName at' : String) (payload : List Nat)
    (info : WSConnInfo) (members : List String)
    (hconn : s.activeConnections connId = some info)
    (hroom : s.documentRooms info.roomName = some members) :
    (wsConnect s connId roomName at').2 = [(connId, .welcome roomName connId)] ∧
    (∀ d ∈ wsMessage s connId payload, d.1 ≠ connId ∧ d.2 = WSMsg.data payload) ∧
    (∀ c ∈ members, c ≠ connId → s.openConn c = true →
      (c, WSMsg.data payload) ∈ wsMessage s connId payload) := by
  have hmsg : wsMessage s connId payload
      = (members.filter (fun c => !(c == connId) && s.openConn c)).map
          (fun c => (c, WSMsg.data payload)) := by
    simp only [wsMessage, hconn, hroom]
  refine ⟨rfl, ?_, ?_⟩
  · intro d hd
    rw [hmsg] at hd
    simp only [List.mem_map, List.mem_filter] at hd
    obtain ⟨c, ⟨_, hc⟩, rfl⟩ := hd
    simp only [Bool.and_eq_true, Bool.not_eq_true', beq_eq_false_iff_ne] at hc
    exact ⟨hc.1, rfl⟩
  · intro c hc hne hopen
    rw [hmsg]
    simp only [List.mem_map, List.mem_filter]
    refine ⟨c, ⟨hc, ?_⟩, rfl⟩
    simp [hne, hopen]

/-- Witness for the C6 amended theorem at the concrete two-member room
state: a fresh connection C gets only its welcome, and a frame from A
reaches B verbatim. -/
theorem ws_welcome_only_and_verbatim_relay_witness :
    (wsExSt.activeConnections "A" = some { roomName := "r", connectedAt := "t" } ∧
      wsExSt.documentRooms "r" = some ["A", "B"]) ∧
    (wsConnect wsExSt "A" "r" "t").2 = [("A", .welcome "r" "A")] ∧
    ("B", WSMsg.data [7, 9]) ∈ wsMessage wsExSt "A" [7, 9] := by
  refine ⟨⟨rfl, rfl⟩, ?_, ?_⟩
  · exact (ws_welcome_only_and_verbatim_relay wsExSt "A" "r" "t" [7, 9]
      { roomName := "r", connectedAt := "t" } ["A", "B"] rfl rfl).1
  · exact (ws_welcome_only_and_verbatim_relay wsExSt "A" "r" "t" [7, 9]
      { roomName := "r", connectedAt := "t" } ["A", "B"] rfl rfl).2.2 "B"
      (by decide) (by decide) (by rfl)

/-! ### Taskboard invariant preservation -/

theorem tbInv_init : tbInv tbInit := by
  refine ⟨?_, ?_, ?_⟩
  · intro r us h
    simp [tbInit] at h
  · intro sid c r h
    simp [tbInit] at h
  · intro r
    simp [tbInit]

theorem tbInv_connect (s : TBState) (sid : String) (h : tbInv s)
    (hfresh : s.conns sid = none) : tbInv (tbConnect s sid) := by
  obtain ⟨h1, h2, h3⟩ := h
  refine ⟨?_, ?_, ?_⟩
  · intro r us hru
    simp only [tbConnect] at hru
    obtain ⟨hrne, husne, hnd, hall⟩ := h1 r us hru
    refine ⟨hrne, husne, hnd, ?_⟩
    intro e he
    obtain ⟨hene, c, hc, hcr, hcu, hcn⟩ := hall e he
    have hsne : e.socketId ≠ sid := by
      intro heq
      rw [heq, hfresh] at hc
      exact Option.noConfusion hc
    exact ⟨hene, c, by simp only [tbConnect, if_neg hsne]; exact hc, hcr, hcu, hcn⟩
  · intro sid' c r hc hcr
    simp only [tbConnect] at hc
    by_cases hs : sid' = sid
    · rw [if_pos hs] at hc
      have : c = { room := none, uid := none, name := none } := (Option.some.inj hc).symm
      rw [this] at hcr
      exact Option.noConfusion hcr
    · rw [if_neg hs] at hc
      obtain ⟨us, hus, e, he, hesid⟩ := h2 sid' c r hc hcr
      exact ⟨us, hus, e, he, hesid⟩
  · exact h3

theorem tbInv_disconnect (s : TBState) (sid : String) (h : tbInv s) :
    tbInv (tbDisconnect s sid).1 := by
  obtain ⟨h1, h2, h3⟩ := h
  cases hc : s.conns sid with
  | none =>
    have : (tbDisconnect s sid).1 = s := by simp [tbDisconnect, hc]
    rw [this]
    exact ⟨h1, h2, h3⟩
  | some c =>
    have hnoentry : c.room = none →
        ∀ r us, s.roomUsers r = some us → ∀ e ∈ us, e.socketId ≠ sid := by
      intro hroom r us hus e he heq
      obtain ⟨_, _, _, hall⟩ := h1 r us hus
      obtain ⟨_, c', hc', hcr', _, _⟩ := hall e he
      rw [heq, hc] at hc'
      have : c = c' := Option.some.inj hc'
      rw [← this, hroom] at hcr'
      exact Option.noConfusion hcr'
    have hInvDrop : ∀ (hroom : c.room = none), tbInv
        { taskBoards := s.taskBoards
          roomUsers := s.roomUsers
          conns := fun k => if k = sid then none else s.conns k
          sio := fun k => (s.sio k).erase sid } := by
      intro hroom
      refine ⟨?_, ?_, ?_⟩
      · intro r us hru
        obtain ⟨hrne, husne, hnd, hall⟩ := h1 r us hru
        refine ⟨hrne, husne, hnd, ?_⟩
        intro e he
        obtain ⟨hene, c', hc', hcr', hcu', hcn'⟩ := hall e he
        have hsne : e.socketId ≠ sid := hnoentry hroom r us hru e he
        exact ⟨hene, c', by simp only [if_neg hsne]; exact hc', hcr', hcu', hcn'⟩
      · intro sid' c' r hc' hcr'
        by_cases hs : sid' = sid
        · rw [hs] at hc'
          simp only [if_pos rfl] at hc'
          exact Option.noConfusion hc'
        · simp only [if_neg hs] at hc'
          exact h2 sid' c' r hc' hcr'
      · exact h3
    cases hroom : c.room with
    | none =>
      cases huid : c.uid with
      | none =>
        have : (tbDisconnect s sid).1 =
            { taskBoards := s.taskBoards
              roomUsers := s.roomUsers
              conns := fun k => if k = sid then none else s.conns k
              sio := fun k => (s.sio k).erase sid } := by
          simp [tbDisconnect, hc, hroom, huid]
        rw [this]
        exact hInvDrop hroom
      | some u =>
        have : (tbDisconnect s sid).1 =
            { taskBoards := s.taskBoards
              roomUsers := s.roomUsers
              conns := fun k => if k = sid then none else s.conns k
              sio := fun k => (s.sio k).erase sid } := by
          simp [tbDisconnect, hc, hroom, huid]
        rw [this]
        exact hInvDrop hroom
    | some r =>
      -- the connection points at room r, so the invariant provides its entry
      obtain ⟨us0, hus0, e0, he0, he0sid⟩ := h2 sid c r hc hroom
      obtain ⟨hrne, husne, hnd, hall⟩ := h1 r us0 hus0
      obtain ⟨he0une, c', hc', hcr', hcu', hcn'⟩ := hall e0 he0
      have hcc' : c = c' := by
        rw [he0sid, hc] at hc'
        exact Option.some.inj hc'
      cases huid : c.uid with
      | none =>
        rw [← hcc'] at hcu'
        rw [huid] at hcu'
        exact Option.noConfusion hcu'
      | some u =>
        have huu : u = e0.userId := by
          rw [← hcc', huid] at hcu'
          exact Option.some.inj hcu'
        have hune : u ≠ "" := huu ▸ he0une
        have hcond : r ≠ "" ∧ u ≠ "" := ⟨hrne, hune⟩
        have hmain : (tbDisconnect s sid).1 =
            (if (removeFirstTB us0 sid).isEmpty then
              { taskBoards := fun k => if k = r then none else s.taskBoards k
                roomUsers := fun k => if k = r then none else s.roomUsers k
                conns := fun k => if k = sid then none else s.conns k
                sio := fun k => (s.sio k).erase sid }
            else
              { taskBoards := s.taskBoards
                roomUsers := fun k =>
                  if k = r then some (removeFirstTB us0 sid) else s.roomUsers k
                conns := fun k => if k = sid then none else s.conns k
                sio := fun k => (s.sio k).erase sid }) := by
          simp only [tbDisconnect, hc, hroom, huid, if_pos hcond, hus0]
          by_cases hemp : (removeFirstTB us0 sid).isEmpty
          · rw [if_pos hemp, if_pos hemp]
          · rw [if_neg hemp, if_neg hemp]
        rw [hmain]
        by_cases hemp : (removeFirstTB us0 sid).isEmpty
        · rw [if_pos hemp]
          refine ⟨?_, ?_, ?_⟩
          · intro r' us' hru'
            by_cases hr' : r' = r
            · subst hr'
              simp only [if_pos rfl] at hru'
              exact Option.noConfusion hru'
            · simp only [if_neg hr'] at hru'
              obtain ⟨hrne', husne', hnd', hall'⟩ := h1 r' us' hru'
              refine ⟨hrne', husne', hnd', ?_⟩
              intro e he
              obtain ⟨hene, c2, hc2, hcr2, hcu2, hcn2⟩ := hall' e he
              have hsne : e.socketId ≠ sid := by
                intro heq
                rw [heq, hc] at hc2
                have := Option.some.inj hc2
                rw [← this, hroom] at hcr2
                exact hr' (Option.some.inj hcr2).symm
              exact ⟨hene, c2, by simp only [if_neg hsne]; exact hc2, hcr2, hcu2, hcn2⟩
          · intro sid' c2 r2 hc2 hcr2
            by_cases hs : sid' = sid
            · rw [hs] at hc2
              simp only [if_pos rfl] at hc2
              exact Option.noConfusion hc2
            · simp only [if_neg hs] at hc2
              obtain ⟨us2, hus2, e2, he2, he2sid⟩ := h2 sid' c2 r2 hc2 hcr2
              by_cases hr2 : r2 = r
              · subst hr2
                rw [hus0] at hus2
                have hus2' : us2 = us0 := (Option.some.inj hus2).symm
                have he2' : e2 ∈ removeFirstTB us0 sid := by
                  refine mem_removeFirstTB_of_ne (hus2' ▸ he2) ?_
                  rw [he2sid]
                  exact hs
                rw [List.isEmpty_iff] at hemp
                rw [hemp] at he2'
                exact absurd he2' (List.not_mem_nil e2)
              · refine ⟨us2, ?_, e2, he2, he2sid⟩
                simp only [if_neg hr2]
                exact hus2
          · intro r'
            by_cases hr' : r' = r
            · simp only [hr', if_pos rfl]
              simp
            · simp only [if_neg hr']
              exact h3 r'
        · rw [if_neg hemp]
          have husne' : removeFirstTB us0 sid ≠ [] := by
            intro hnil
            rw [← List.isEmpty_iff] at hnil
            exact hemp hnil
          refine ⟨?_, ?_, ?_⟩
          · intro r' us' hru'
            by_cases hr' : r' = r
            · subst hr'
              simp only [if_pos rfl] at hru'
              have hus' : us' = removeFirstTB us0 sid := (Option.some.inj hru').symm
              subst hus'
              refine ⟨hrne, husne', ?_, ?_⟩
              · exact ((removeFirstTB_sublist us0 sid).map TBUserEntry.socketId).nodup hnd
              · intro e he
                have heus0 : e ∈ us0 := mem_removeFirstTB he
                have hsne : e.socketId ≠ sid := removeFirstTB_socketId_ne hnd he
                obtain ⟨hene, c2, hc2, hcr2, hcu2, hcn2⟩ := hall e heus0
                exact ⟨hene, c2, by simp only [if_neg hsne]; exact hc2, hcr2, hcu2, hcn2⟩
            · simp only [if_neg hr'] at hru'
              obtain ⟨hrne', husne2, hnd', hall'⟩ := h1 r' us' hru'
              refine ⟨hrne', husne2, hnd', ?_⟩
              intro e he
              obtain ⟨hene, c2, hc2, hcr2, hcu2, hcn2⟩ := hall' e he
              have hsne : e.socketId ≠ sid := by
                intro heq
                rw [heq, hc] at hc2
                have := Option.some.inj hc2
                rw [← this, hroom] at hcr2
                exact hr' (Option.some.inj hcr2).symm
              exact ⟨hene, c2, by simp only [if_neg hsne]; exact hc2, hcr2, hcu2, hcn2⟩
          · intro sid' c2 r2 hc2 hcr2
            by_cases hs : sid' = sid
            · rw [hs] at hc2
              simp only [if_pos rfl] at hc2
              exact Option.noConfusion hc2
            · simp only [if_neg hs] at hc2
              obtain ⟨us2, hus2, e2, he2, he2sid⟩ := h2 sid' c2 r2 hc2 hcr2
              by_cases hr2 : r2 = r
              · subst hr2
                rw [hus0] at hus2
                have hus2' : us2 = us0 := (Option.some.inj hus2).symm
                refine ⟨removeFirstTB us0 sid, ?_, e2, ?_, he2sid⟩
                · simp
                · refine mem_removeFirstTB_of_ne (hus2' ▸ he2) ?_
                  rw [he2sid]
                  exact hs
              · refine ⟨us2, ?_, e2, he2, he2sid⟩
                simp only [if_neg hr2]
                exact hus2
          · intro r'
            by_cases hr' : r' = r
            · simp only [hr', if_pos rfl]
              have : (s.taskBoards r).isSome := (h3 r).mpr (by rw [hus0]; rfl)
              simp [this]
            · simp only [if_neg hr']
              exact h3 r'

theorem tbInv_join (s : TBState) (sid roomId userId userName : String)
    (board : Option (List TBColumn)) (h : tbInv s)
    (c0 : TBConn) (hc0 : s.conns sid = some c0) (hroom0 : c0.room = none)
    (hr : roomId ≠ "") (hu : userId ≠ "") :
    tbInv (joinTaskboard s sid roomId userId userName board).1 := by
  obtain ⟨h1, h2, h3⟩ := h
  have hA : ∀ r us, s.roomUsers r = some us → ∀ e ∈ us, e.socketId ≠ sid := by
    intro r us hus e he heq
    obtain ⟨_, _, _, hall⟩ := h1 r us hus
    obtain ⟨_, c', hc', hcr', _, _⟩ := hall e he
    rw [heq, hc0] at hc'
    rw [← Option.some.inj hc', hroom0] at hcr'
    exact Option.noConfusion hcr'
  have hmain : (joinTaskboard s sid roomId userId userName board).1 =
      { taskBoards := fun k =>
          if k = roomId then some ((s.taskBoards roomId).getD (board.getD getDefaultBoard))
          else s.taskBoards k
        roomUsers := fun k =>
          if k = roomId then
            some ((if (s.taskBoards roomId).isNone then []
                   else (s.roomUsers roomId).getD []) ++
              [{ userId := userId, userName := userName, socketId := sid }])
          else s.roomUsers k
        conns := fun k =>
          if k = sid then
            some { room := some roomId, uid := some userId, name := some userName }
          else s.conns k
        sio := sioJoin s.sio roomId sid } := by
    simp [joinTaskboard, hc0]
  set base : List TBUserEntry :=
    (if (s.taskBoards roomId).isNone then [] else (s.roomUsers roomId).getD []) with hbase
  have hbaseFacts : (base.map TBUserEntry.socketId).Nodup ∧
      (∀ e ∈ base, e.socketId ≠ sid) ∧
      (∀ e ∈ base, e.userId ≠ "" ∧ ∃ c, s.conns e.socketId = some c ∧
        c.room = some roomId ∧ c.uid = some e.userId ∧ c.name = some e.userName) ∧
      (∀ us2, s.roomUsers roomId = some us2 → us2 = base) := by
    cases hru : s.roomUsers roomId with
    | none =>
      have htb : s.taskBoards roomId = none := by
        cases htb' : s.taskBoards roomId with
        | none => rfl
        | some b =>
          have : (s.roomUsers roomId).isSome := (h3 roomId).mp (by rw [htb']; rfl)
          rw [hru] at this
          simp at this
      have : base = [] := by rw [hbase, htb]; rfl
      rw [this]
      refine ⟨List.nodup_nil, ?_, ?_, ?_⟩
      · intro e he; exact absurd he (List.not_mem_nil e)
      · intro e he; exact absurd he (List.not_mem_nil e)
      · intro us2 hus2; exact Option.noConfusion hus2
    | some usOld =>
      have htb : (s.taskBoards roomId).isNone = false := by
        have hsome : (s.taskBoards roomId).isSome := (h3 roomId).mpr (by rw [hru]; rfl)
        cases htb2 : s.taskBoards roomId with
        | none => rw [htb2] at hsome; simp at hsome
        | some b => simp [htb2]
      have hbeq : base = usOld := by simp [hbase, htb, hru]
      obtain ⟨_, _, hnd, hall⟩ := h1 roomId usOld hru
      rw [hbeq]
      refine ⟨hnd, ?_, hall, ?_⟩
      · intro e he; exact hA roomId usOld hru e he
      · intro us2 hus2
        exact (Option.some.inj hus2).symm
  obtain ⟨hbNodup, hbNoSid, hbAll, hbComplete⟩ := hbaseFacts
  rw [hmain]
  refine ⟨?_, ?_, ?_⟩
  · intro r' us' hru'
    by_cases hr' : r' = roomId
    · subst hr'
      simp only [if_pos rfl] at hru'
      have hus' : us' = base ++ [{ userId := userId, userName := userName, socketId := sid }] :=
        (Option.some.inj hru').symm
      subst hus'
      refine ⟨hr, by simp, ?_, ?_⟩
      · rw [List.map_append]
        rw [List.nodup_append]
        refine ⟨hbNodup, List.nodup_singleton _, ?_⟩
        intro x hx
        rcases List.mem_map.mp hx with ⟨e, he, hex⟩
        simp only [List.map_cons, List.map_nil, List.mem_singleton]
        intro hxs
        exact hbNoSid e he (hex.trans hxs)
      · intro e he
        rcases List.mem_append.mp he with hbm | hnewm
        · obtain ⟨hene, c2, hc2, hcr2, hcu2, hcn2⟩ := hbAll e hbm
          have hsne : e.socketId ≠ sid := hbNoSid e hbm
          exact ⟨hene, c2, by simp only [if_neg hsne]; exact hc2, hcr2, hcu2, hcn2⟩
        · rw [List.mem_singleton] at hnewm
          subst hnewm
          refine ⟨hu, { room := some r', uid := some userId, name := some userName },
            by simp, rfl, rfl, rfl⟩
    · simp only [if_neg hr'] at hru'
      obtain ⟨hrne2, husne2, hnd2, hall2⟩ := h1 r' us' hru'
      refine ⟨hrne2, husne2, hnd2, ?_⟩
      intro e he
      obtain ⟨hene, c2, hc2, hcr2, hcu2, hcn2⟩ := hall2 e he
      have hsne : e.socketId ≠ sid := hA r' us' hru' e he
      exact ⟨hene, c2, by simp only [if_neg hsne]; exact hc2, hcr2, hcu2, hcn2⟩
  · intro sid' c' r' hc' hcr'
    by_cases hs : sid' = sid
    · subst hs
      simp only [if_pos rfl] at hc'
      have hc'' : c' = { room := some roomId, uid := some userId, name := some userName } :=
        (Option.some.inj hc').symm
      rw [hc''] at hcr'
      have hr'' : r' = roomId := (Option.some.inj hcr').symm
      subst hr''
      refine ⟨base ++ [{ userId := userId, userName := userName, socketId := sid' }],
        by simp, ?_⟩
      refine ⟨{ userId := userId, userName := userName, socketId := sid' }, ?_, rfl⟩
      exact List.mem_append.mpr (Or.inr (List.mem_singleton.mpr rfl))
    · simp only [if_neg hs] at hc'
      obtain ⟨us2, hus2, e2, he2, he2sid⟩ := h2 sid' c' r' hc' hcr'
      by_cases hr2 : r' = roomId
      · subst hr2
        have hbeq : us2 = base := hbComplete us2 hus2
        refine ⟨base ++ [{ userId := userId, userName := userName, socketId := sid }],
          by simp, e2, ?_, he2sid⟩
        exact List.mem_append.mpr (Or.inl (hbeq ▸ he2))
      · refine ⟨us2, ?_, e2, he2, he2sid⟩
        simp only [if_neg hr2]
        exact hus2
  · intro r'
    by_cases hr' : r' = roomId
    · subst hr'
      simp only [if_pos rfl]
      simp
    · simp only [if_neg hr']
      exact h3 r'

theorem tbInv_run (s : TBState) (ops : List TBOp) (h : tbInv s)
    (hwf : tbWF s ops = true) : tbInv (tbRun s ops) := by
  induction ops generalizing s with
  | nil => exact h
  | cons op rest ih =>
    cases op with
    | connect sid =>
      rw [tbWF, Bool.and_eq_true] at hwf
      refine ih (tbStep s (.connect sid)) ?_ hwf.2
      apply tbInv_connect s sid h
      have hop := hwf.1
      cases hc : s.conns sid with
      | none => rfl
      | some c => rw [hc] at hop; simp at hop
    | join sid roomId userId userName board =>
      rw [tbWF, Bool.and_eq_true] at hwf
      refine ih (tbStep s (.join sid roomId userId userName board)) ?_ hwf.2
      have hop := hwf.1
      rw [Bool.and_eq_true, Bool.and_eq_true] at hop
      obtain ⟨⟨hcr, hrne⟩, hune⟩ := hop
      cases hc : s.conns sid with
      | none => rw [hc] at hcr; simp at hcr
      | some c =>
        rw [hc] at hcr
        simp only at hcr
        have hroom : c.room = none := by
          cases hcc : c.room with
          | none => rfl
          | some r => rw [hcc] at hcr; simp at hcr
        exact tbInv_join s sid roomId userId userName board h c hc hroom
          (by simpa using hrne) (by simpa using hune)
    | disconnect sid =>
      rw [tbWF, Bool.and_eq_true] at hwf
      exact ih (tbStep s (.disconnect sid)) (tbInv_disconnect s sid h) hwf.2

/-- C1 amended: on well-formed traces, where each connection joins at
most one taskboard room and join payloads carry truthy room and user
ids, the stored roster of every room lists exactly the currently
connected members of that room: one entry per live connection whose
closure variables point at the room (no duplicates by connection, no
ghost entries for departed connections), with the userId and userName
that connection joined with.  The broadcast online-users payload is the
image of this roster, so it matches as well. -/
theorem taskboard_roster_matches_connected_members
    (ops : List TBOp) (hwf : tbWF tbInit ops = true) :
    ∀ r us, (tbRun tbInit ops).roomUsers r = some us →
      (us.map TBUserEntry.socketId).Nodup ∧
      (∀ e ∈ us, ∃ c, (tbRun tbInit ops).conns e.socketId = some c ∧
        c.room = some r ∧ c.uid = some e.userId ∧ c.name = some e.userName) ∧
      (∀ sid c, (tbRun tbInit ops).conns sid = some c → c.room = some r →
        ∃ e, e ∈ us ∧ e.socketId = sid) := by
  obtain ⟨h1, h2, h3⟩ := tbInv_run tbInit ops tbInv_init hwf
  intro r us hus
  obtain ⟨_, _, hnd, hall⟩ := h1 r us hus
  refine ⟨hnd, ?_, ?_⟩
  · intro e he
    obtain ⟨_, c, hc, hcr, hcu, hcn⟩ := hall e he
    exact ⟨c, hc, hcr, hcu, hcn⟩
  · intro sid c hc hcr
    obtain ⟨us2, hus2, e, he, hesid⟩ := h2 sid c r hc hcr
    rw [hus] at hus2
    have heq : us2 = us := (Option.some.inj hus2).symm
    exact ⟨e, heq ▸ he, hesid⟩

/-- Witness for the C1 amended theorem on a concrete well-formed trace:
two connections join room r, the first disconnects; the roster equals
the single remaining live member. -/
theorem taskboard_roster_matches_connected_members_witness :
    tbWF tbInit tbExOps = true ∧
    (tbRun tbInit tbExOps).roomUsers "r"
      = some [{ userId := "v", userName := "m", socketId := "s2" }] ∧
    (([{ userId := "v", userName := "m", socketId := "s2" }].map
        TBUserEntry.socketId).Nodup ∧
      ∃ c, (tbRun tbInit tbExOps).conns "s2" = some c ∧ c.room = some "r" ∧
        c.uid = some "v" ∧ c.name = some "m") := by
  refine ⟨by decide, by decide, ?_, ?_⟩
  · exact (taskboard_roster_matches_connected_members tbExOps (by decide) "r"
      [{ userId := "v", userName := "m", socketId := "s2" }] (by decide)).1
  · exact (taskboard_roster_matches_connected_members tbExOps (by decide) "r"
      [{ userId := "v", userName := "m", socketId := "s2" }] (by decide)).2.1
      { userId := "v", userName := "m", socketId := "s2" } (List.mem_cons_self _ _)

/-- C2 amended: on well-formed traces the taskboard feature satisfies
the claim: board state for a room key exists exactly while some live
connection is in that room, so removing the last member destroys the
room state and any member present implies the room exists.  The
whiteboard half of the claim is false (see the counterexample): there
the canvas survives the last leave by design. -/
theorem taskboard_room_state_iff_member_present
    (ops : List TBOp) (hwf : tbWF tbInit ops = true) :
    ∀ r, ((tbRun tbInit ops).taskBoards r).isSome ↔
      ∃ sid c, (tbRun tbInit ops).conns sid = some c ∧ c.room = some r := by
  obtain ⟨h1, h2, h3⟩ := tbInv_run tbInit ops tbInv_init hwf
  intro r
  constructor
  · intro hb
    have hrus : ((tbRun tbInit ops).roomUsers r).isSome := (h3 r).mp hb
    cases hus : (tbRun tbInit ops).roomUsers r with
    | none => rw [hus] at hrus; simp at hrus
    | some us =>
      obtain ⟨_, husne, _, hall⟩ := h1 r us hus
      cases us with
      | nil => exact absurd rfl husne
      | cons e rest =>
        obtain ⟨_, c, hc, hcr, _, _⟩ := hall e (List.mem_cons_self e rest)
        exact ⟨e.socketId, c, hc, hcr⟩
  · rintro ⟨sid, c, hc, hcr⟩
    obtain ⟨us, hus, _⟩ := h2 sid c r hc hcr
    exact (h3 r).mpr (by rw [hus]; rfl)

/-- Witness for the C2 amended theorem on the concrete two-member
trace. -/
theorem taskboard_room_state_iff_member_present_witness :
    tbWF tbInit tbExOps = true ∧
    (((tbRun tbInit tbExOps).taskBoards "r").isSome ↔
      ∃ sid c, (tbRun tbInit tbExOps).conns sid = some c ∧ c.room = some "r") :=
  ⟨by decide, taskboard_room_state_iff_member_present tbExOps (by decide) "r"⟩

/-! ### Chat invariant preservation -/

theorem ccInv_init : ccInv ccInit := by
  constructor
  · intro r rd h
    simp [ccInit] at h
  · intro sid ru h
    simp [ccInit] at h

theorem handleUserLeave_main (s : CCState) (sid r : String) (roomData : ChatRoomData)
    (user : ChatRoomUser) (hrne : ¬ r = "") (hroom : s.activeRooms r = some roomData)
    (huser : mapGet roomData.users sid = some user) :
    (handleUserLeave s sid r).1 =
      { activeRooms := fun k =>
          if k = r then
            (if (mapDel roomData.users sid).isEmpty then none
             else some { users := mapDel roomData.users sid
                         messages := roomData.messages })
          else s.activeRooms k
        userSessions := fun k => if k = sid then none else s.userSessions k
        typingUsers := fun k =>
          if k = r then
            (if (mapDel roomData.users sid).isEmpty then none
             else (s.typingUsers r).map (fun l => l.erase user.id))
          else s.typingUsers k
        sio := sioLeave s.sio r sid } := by
  simp [handleUserLeave, hrne, hroom, huser]

theorem ccInv_handleUserLeave (s : CCState) (sid r : String) (h : ccInv s) :
    ccInv (handleUserLeave s sid r).1 := by
  obtain ⟨h1, h2⟩ := h
  by_cases hr0 : r = ""
  · have : (handleUserLeave s sid r).1 = s := by simp [handleUserLeave, hr0]
    rw [this]; exact ⟨h1, h2⟩
  · cases hroom : s.activeRooms r with
    | none =>
      have : (handleUserLeave s sid r).1 = s := by simp [handleUserLeave, hr0, hroom]
      rw [this]; exact ⟨h1, h2⟩
    | some roomData =>
      cases huser : mapGet roomData.users sid with
      | none =>
        have : (handleUserLeave s sid r).1 = { s with sio := sioLeave s.sio r sid } := by
          simp [handleUserLeave, hr0, hroom, huser]
        rw [this]; exact ⟨h1, h2⟩
      | some user =>
        rw [handleUserLeave_main s sid r roomData user hr0 hroom huser]
        obtain ⟨hrne, _, hndr, hallr⟩ := h1 r roomData hroom
        constructor
        · intro r' rd' h'
          dsimp only at h'
          by_cases hr' : r' = r
          · subst hr'
            rw [if_pos rfl] at h'
            cases hemp : (mapDel roomData.users sid).isEmpty with
            | true => rw [hemp] at h'; simp at h'
            | false =>
              rw [hemp] at h'
              simp only [Bool.false_eq_true, if_neg] at h'
              have hrd' : rd' = { users := mapDel roomData.users sid
                                  messages := roomData.messages } :=
                (Option.some.inj h').symm
              subst hrd'
              refine ⟨hrne, ?_, nodup_keys_mapDel sid hndr, ?_⟩
              · intro hnil
                simp only at hnil
                rw [hnil] at hemp
                simp at hemp
              · intro p hp
                simp only at hp
                have hpm := mem_mapDel hp
                have hpne : p.1 ≠ sid := by
                  intro heq
                  have := mapGet_of_mem (nodup_keys_mapDel sid hndr) hp
                  rw [heq, mapGet_mapDel_self hndr] at this
                  exact Option.noConfusion this
                obtain ⟨u, hu⟩ := hallr p hpm
                exact ⟨u, by simp only [if_neg hpne]; exact hu⟩
          · rw [if_neg hr'] at h'
            obtain ⟨hrne', hne', hnd', hall'⟩ := h1 r' rd' h'
            refine ⟨hrne', hne', hnd', ?_⟩
            intro p hp
            obtain ⟨u, hu⟩ := hall' p hp
            have hpne : p.1 ≠ sid := by
              intro heq
              obtain ⟨u2, hu2⟩ := hallr (sid, user) (mapGet_some_mem huser)
              rw [heq] at hu
              rw [hu] at hu2
              have hfst : r' = r := congrArg Prod.fst (Option.some.inj hu2)
              exact hr' hfst
            exact ⟨u, by simp only [if_neg hpne]; exact hu⟩
        · intro sid' ru' h'
          dsimp only at h'
          by_cases hs' : sid' = sid
          · subst hs'
            simp only [if_pos rfl] at h'
            exact Option.noConfusion h'
          · simp only [if_neg hs'] at h'
            obtain ⟨rd0, hrd0, hget0⟩ := h2 sid' ru' h'
            by_cases hru : ru'.1 = r
            · rw [hru] at hrd0
              rw [hroom] at hrd0
              have hrd0' : rd0 = roomData := Option.some.inj hrd0.symm
              subst hrd0'
              have hget' : (mapGet (mapDel rd0.users sid) sid').isSome := by
                rw [mapGet_mapDel_ne rd0.users sid sid' hs']
                exact hget0
              have hemp : (mapDel rd0.users sid).isEmpty = false := by
                cases hd : mapDel rd0.users sid with
                | nil =>
                  rw [hd] at hget'
                  simp [mapGet] at hget'
                | cons a l => rfl
              refine ⟨{ users := mapDel rd0.users sid, messages := rd0.messages }, ?_, hget'⟩
              rw [hru]
              dsimp only
              rw [if_pos rfl, hemp]
              simp
            · refine ⟨rd0, ?_, hget0⟩
              dsimp only
              rw [if_neg hru]
              exact hrd0

theorem handleUserLeave_clears (s : CCState) (sid : String) (ru : String × ChatUserInfo)
    (h : ccInv s) (hs : s.userSessions sid = some ru) :
    (handleUserLeave s sid ru.1).1.userSessions sid = none ∧
    (∀ r' rd, (handleUserLeave s sid ru.1).1.activeRooms r' = some rd →
      mapGet rd.users sid = none) := by
  obtain ⟨h1, h2⟩ := h
  obtain ⟨roomData, hroom, hget⟩ := h2 sid ru hs
  obtain ⟨hrne, _, hndr, hallr⟩ := h1 ru.1 roomData hroom
  cases huser : mapGet roomData.users sid with
  | none => rw [huser] at hget; simp at hget
  | some user =>
    rw [handleUserLeave_main s sid ru.1 roomData user hrne hroom huser]
    constructor
    · simp
    · intro r' rd h'
      dsimp only at h'
      by_cases hr' : r' = ru.1
      · subst hr'
        rw [if_pos rfl] at h'
        cases hemp : (mapDel roomData.users sid).isEmpty with
        | true => rw [hemp] at h'; simp at h'
        | false =>
          rw [hemp] at h'
          simp only [Bool.false_eq_true, if_neg] at h'
          have hrd : rd = { users := mapDel roomData.users sid
                            messages := roomData.messages } :=
            (Option.some.inj h').symm
          subst hrd
          exact mapGet_mapDel_self hndr
      · rw [if_neg hr'] at h'
        cases hg : mapGet rd.users sid with
        | none => rfl
        | some v =>
          obtain ⟨hrne', _, hnd', hall'⟩ := h1 r' rd h'
          obtain ⟨u, hu⟩ := hall' (sid, v) (mapGet_some_mem hg)
          rw [hs] at hu
          exact absurd (congrArg Prod.fst (Option.some.inj hu.symm)) hr'

theorem ccInv_joinRoom (s : CCState) (sid : String) (user : ChatUserInfo)
    (roomId : String) (history : List MessageData) (now : String)
    (h : ccInv s) (hrne : roomId ≠ "") :
    ccInv (joinRoom s sid user roomId history now).1 := by
  have hfree : ccInv (match s.userSessions sid with
        | some ru => handleUserLeave s sid ru.1
        | none => (s, [])).1 ∧
      (∀ r' rd, (match s.userSessions sid with
          | some ru => handleUserLeave s sid ru.1
          | none => (s, [])).1.activeRooms r' = some rd →
        mapGet rd.users sid = none) := by
    cases hsess : s.userSessions sid with
    | none =>
      refine ⟨h, ?_⟩
      intro r' rd h'
      cases hg : mapGet rd.users sid with
      | none => rfl
      | some v =>
        obtain ⟨h1, h2⟩ := h
        obtain ⟨_, _, _, hall'⟩ := h1 r' rd h'
        obtain ⟨u, hu⟩ := hall' (sid, v) (mapGet_some_mem hg)
        rw [hsess] at hu
        exact Option.noConfusion hu
    | some ru =>
      exact ⟨ccInv_handleUserLeave s sid ru.1 h,
        (handleUserLeave_clears s sid ru h hsess).2⟩
  obtain ⟨⟨h1, h2⟩, hSidFree⟩ := hfree
  set s0 := (match s.userSessions sid with
    | some ru => handleUserLeave s sid ru.1
    | none => (s, [])).1 with hs0
  have hmain : (joinRoom s sid user roomId history now).1 =
      { activeRooms := fun k =>
          if k = roomId then
            some { users := mapSet ((s0.activeRooms roomId).getD
                     { users := [], messages := [] }).users sid
                     { id := user.id, name := user.name, email := user.email,
                       socketId := sid, joinedAt := now }
                   messages := ((s0.activeRooms roomId).getD
                     { users := [], messages := [] }).messages }
          else s0.activeRooms k
        userSessions := fun k =>
          if k = sid then some (roomId, user) else s0.userSessions k
        typingUsers := s0.typingUsers
        sio := sioJoin s0.sio roomId sid } := by
    rw [joinRoom]
  set roomData := (s0.activeRooms roomId).getD { users := [], messages := [] } with hrd
  have hndRoom : (roomData.users.map Prod.fst).Nodup := by
    cases hact : s0.activeRooms roomId with
    | none => rw [hrd, hact]; exact List.nodup_nil
    | some rd0 =>
      obtain ⟨_, _, hnd0, _⟩ := h1 roomId rd0 hact
      rw [hrd, hact]
      exact hnd0
  have hNoSid : mapGet roomData.users sid = none := by
    cases hact : s0.activeRooms roomId with
    | none => rw [hrd, hact]; rfl
    | some rd0 =>
      rw [hrd, hact]
      exact hSidFree roomId rd0 hact
  rw [hmain]
  constructor
  · intro r' rd' h'
    dsimp only at h'
    by_cases hr' : r' = roomId
    · subst hr'
      rw [if_pos rfl] at h'
      have hrd' : rd' = { users := mapSet roomData.users sid
                            { id := user.id, name := user.name, email := user.email,
                              socketId := sid, joinedAt := now }
                          messages := roomData.messages } :=
        (Option.some.inj h').symm
      subst hrd'
      refine ⟨hrne, by simp [mapSet_ne_nil], nodup_keys_mapSet _ _ hndRoom, ?_⟩
      intro p hp
      simp only at hp
      rcases mem_mapSet hndRoom hp with heq | ⟨hm, hne⟩
      · subst heq
        exact ⟨user, by simp⟩
      · cases hact : s0.activeRooms r' with
        | none =>
          rw [hrd, hact] at hm
          exact absurd hm (List.not_mem_nil p)
        | some rd0 =>
          obtain ⟨_, _, _, hall0⟩ := h1 r' rd0 hact
          have hm0 : p ∈ rd0.users := by
            rw [hrd, hact] at hm
            exact hm
          obtain ⟨u, hu⟩ := hall0 p hm0
          exact ⟨u, by simp only [if_neg hne]; exact hu⟩
    · rw [if_neg hr'] at h'
      obtain ⟨hrne', hne', hnd', hall'⟩ := h1 r' rd' h'
      refine ⟨hrne', hne', hnd', ?_⟩
      intro p hp
      obtain ⟨u, hu⟩ := hall' p hp
      have hpne : p.1 ≠ sid := by
        intro heq
        have := mapGet_of_mem hnd' hp
        rw [heq] at this
        rw [hSidFree r' rd' h'] at this
        exact Option.noConfusion this
      exact ⟨u, by simp only [if_neg hpne]; exact hu⟩
  · intro sid' ru' h'
    dsimp only at h'
    by_cases hs' : sid' = sid
    · subst hs'
      simp only [if_pos rfl] at h'
      have hru' : ru' = (roomId, user) := (Option.some.inj h').symm
      subst hru'
      refine ⟨{ users := mapSet roomData.users sid'
                  { id := user.id, name := user.name, email := user.email,
                    socketId := sid', joinedAt := now }
                messages := roomData.messages }, by simp, ?_⟩
      rw [mapGet_mapSet_self]
      rfl
    · simp only [if_neg hs'] at h'
      obtain ⟨rd0, hrd0, hget0⟩ := h2 sid' ru' h'
      by_cases hru : ru'.1 = roomId
      · rw [hru] at hrd0
        have hrdeq : roomData = rd0 := by rw [hrd, hrd0]; rfl
        refine ⟨{ users := mapSet roomData.users sid
                    { id := user.id, name := user.name, email := user.email,
                      socketId := sid, joinedAt := now }
                  messages := roomData.messages }, ?_, ?_⟩
        · rw [hru]
          simp
        · rw [mapGet_mapSet_ne _ _ _ _ hs']
          rw [hrdeq]
          exact hget0
      · refine ⟨rd0, ?_, hget0⟩
        dsimp only
        rw [if_neg hru]
        exact hrd0

theorem ccInv_ccDisconnect (s : CCState) (sid : String) (h : ccInv s) :
    ccInv (ccDisconnect s sid).1 := by
  cases hsess : s.userSessions sid with
  | none =>
    have : (ccDisconnect s sid).1 = s := by simp [ccDisconnect, hsess]
    rw [this]; exact h
  | some ru =>
    have : (ccDisconnect s sid).1 = (handleUserLeave s sid ru.1).1 := by
      simp [ccDisconnect, hsess]
    rw [this]
    exact ccInv_handleUserLeave s sid ru.1 h

theorem ccInv_run (s : CCState) (ops : List CCOp) (h : ccInv s)
    (hwf : ccWF ops = true) : ccInv (ccRun s ops) := by
  induction ops generalizing s with
  | nil => exact h
  | cons op rest ih =>
    rw [ccWF, List.all_cons, Bool.and_eq_true] at hwf
    cases op with
    | joinRoom sid user roomId history now =>
      exact ih (ccStep s (.joinRoom sid user roomId history now))
        (ccInv_joinRoom s sid user roomId history now h
          (by simpa [ccOpOk] using hwf.1)) hwf.2
    | leaveRoom sid roomId =>
      exact ih (ccStep s (.leaveRoom sid roomId))
        (ccInv_handleUserLeave s sid roomId h) hwf.2
    | disconnect sid =>
      exact ih (ccStep s (.disconnect sid)) (ccInv_ccDisconnect s sid h) hwf.2

/-- C7 amended: the chat feature keeps each connection in at most one
room: join-room implicitly leaves the previously recorded room, so after
any well-formed trace a socket id is a key of the users Map of at most
one active room.  The task-board feature violates the claim: its join
handler never leaves the previous room (see the counterexample). -/
theorem chat_connection_in_at_most_one_room
    (ops : List CCOp) (hwf : ccWF ops = true) :
    ∀ sid r1 r2 rd1 rd2,
      (ccRun ccInit ops).activeRooms r1 = some rd1 →
      (ccRun ccInit ops).activeRooms r2 = some rd2 →
      (mapGet rd1.users sid).isSome → (mapGet rd2.users sid).isSome →
      r1 = r2 := by
  obtain ⟨h1, h2⟩ := ccInv_run ccInit ops ccInv_init hwf
  intro sid r1 r2 rd1 rd2 hr1 hr2 hg1 hg2
  cases hv1 : mapGet rd1.users sid with
  | none => rw [hv1] at hg1; simp at hg1
  | some v1 =>
    cases hv2 : mapGet rd2.users sid with
    | none => rw [hv2] at hg2; simp at hg2
    | some v2 =>
      obtain ⟨_, _, _, hall1⟩ := h1 r1 rd1 hr1
      obtain ⟨_, _, _, hall2⟩ := h1 r2 rd2 hr2
      obtain ⟨u1, hu1⟩ := hall1 (sid, v1) (mapGet_some_mem hv1)
      obtain ⟨u2, hu2⟩ := hall2 (sid, v2) (mapGet_some_mem hv2)
      rw [hu1] at hu2
      have hfst : r1 = r2 := congrArg Prod.fst (Option.some.inj hu2)
      exact hfst

/-- Trace for the C7 witness: socket s1 joins chat room a and then chat
room b. -/
def ccExOps : List CCOp :=
  [.joinRoom "s1" ccExUser "a" [] "T0", .joinRoom "s1" ccExUser "b" [] "T1"]

/-- Witness for the C7 amended theorem: after the two joins the socket
sits only in room b (room a was destroyed when its only member left), so
both room hypotheses hold only at b. -/
theorem chat_connection_in_at_most_one_room_witness :
    ccWF ccExOps = true ∧
    (ccRun ccInit ccExOps).activeRooms "a" = none ∧
    (∃ rd, (ccRun ccInit ccExOps).activeRooms "b" = some rd ∧
      (mapGet rd.users "s1").isSome) ∧
    (∀ rd1 rd2,
      (ccRun ccInit ccExOps).activeRooms "b" = some rd1 →
      (ccRun ccInit ccExOps).activeRooms "b" = some rd2 →
      (mapGet rd1.users "s1").isSome → (mapGet rd2.users "s1").isSome →
      ("b" : String) = "b") :=
  ⟨by decide, by decide,
   ⟨{ users := [("s1", { id := "u1", name := "Ann", email := "ann@x", socketId := "s1", joinedAt := "T1" })], messages := [] }, by decide, by decide⟩,
   fun rd1 rd2 h1 h2 hg1 hg2 =>
     chat_connection_in_at_most_one_room ccExOps (by decide) "s1" "b" "b" rd1 rd2
       h1 h2 hg1 hg2⟩

/-- Witness for the C4 theorem at the concrete two-member states: a
canvas mutation from w1 never targets w1, and a message from s1 in room
r1 is emitted to the full room list that contains s1. -/
theorem broadcast_excludeSender_semantics_witness :
    ("s1" ∈ ccExSt.sio "r1") ∧
    (∀ e ∈ (wbCanvasObjectAdded wbExSt "w1" { objects := ["o2"] }).2,
      "w1" ∉ e.targets) ∧
    ∃ m, (sendMessage ccExSt "s1" "r1" "hi" ccExUser 5 "ab" "T1" true).2.get? 1
        = some (.emit ⟨ccExSt.sio "r1", .newMessage m⟩) ∧
      "s1" ∈ ccExSt.sio "r1" ∧
      m.id = mkMessageId 5 "ab" ∧ m.timestamp = "T1" :=
  ⟨by decide,
   (broadcast_excludeSender_semantics wbExSt "w1" { objects := ["o2"] }
     ccExSt "s1" "r1" "hi" ccExUser 5 "ab" "T1" true (by decide)).1,
   (broadcast_excludeSender_semantics wbExSt "w1" { objects := ["o2"] }
     ccExSt "s1" "r1" "hi" ccExUser 5 "ab" "T1" true (by decide)).2⟩

/-- C1 counterexample: after the same connection sends join-taskboard
twice for room r, the stored user set holds two entries for the same
user identity: the JS Set of fresh object literals never deduplicates,
so the roster is not duplicate-free. -/
theorem taskboard_roster_duplicate_counterexample :
    (tbRun tbInit tbDupOps).roomUsers "r"
      = some [{ userId := "u", userName := "n", socketId := "s1" },
              { userId := "u", userName := "n", socketId := "s1" }] ∧
    ¬ ((((tbRun tbInit tbDupOps).roomUsers "r").getD []).map
        TBUserEntry.userId).Nodup := by
  refine ⟨by rfl, ?_⟩
  intro h
  rw [(by rfl : ((tbRun tbInit tbDupOps).roomUsers "r").getD []
      = [{ userId := "u", userName := "n", socketId := "s1" },
         { userId := "u", userName := "n", socketId := "s1" }])] at h
  simp at h

/-- C2 counterexample: when the last member of whiteboard room wr
disconnects, only the roster is deleted: the canvas state stays
registered under the room key, so per-room state survives the last
leave (the source keeps it deliberately for rejoining users). -/
theorem whiteboard_canvas_persists_after_last_leave :
    wbSeqState.roomUsers "wr" = none ∧
    wbSeqState.whiteboards "wr" = some { objects := [] } :=
  ⟨rfl, rfl⟩

/-- C7 counterexample: after join-taskboard for t1 and then t2, the
connection holds roster entries in both rooms of the taskboard
namespace at once, and stays in both socket.io rooms: joining a new
taskboard room does not leave the previous one. -/
theorem taskboard_join_keeps_previous_room :
    (tbRun tbInit tbTwoRoomOps).roomUsers "t1"
      = some [{ userId := "u", userName := "n", socketId := "s1" }] ∧
    (tbRun tbInit tbTwoRoomOps).roomUsers "t2"
      = some [{ userId := "u", userName := "n", socketId := "s1" }] ∧
    (tbRun tbInit tbTwoRoomOps).sio "t1" = ["s1"] ∧
    (tbRun tbInit tbTwoRoomOps).sio "t2" = ["s1"] :=
  ⟨rfl, rfl, rfl, rfl⟩

end Collab
